import Mathlib

/-!
A shallow embedding of the cinekav AV library (samkusin/HLSLibrary): the
Buffer substrate (avlib.hpp / avlib.cpp), the MPEG-TS PES header parser and
PMT section parser (mpegts.cpp), the elementary-stream H.264 access-unit
scanner and access-unit batch list (elemstream.cpp / elemstream.hpp), the
HLS media-playlist parser (hlsplaylist.cpp), and the relevant branches of
the HLS orchestrator state machine (hlstream.cpp), together with theorems
checking the specification against that code.

Conventions of the embedding:
* machine integers are `Nat`, with explicit masking or truncation where the
  C++ width matters;
* pointers into a byte region are `Nat` offsets from the region base, and a
  pointer that may be null is an `Option Nat`;
* a `Buffer` has `base` at offset 0, its `tail` cursor is `stored.length`
  (the bytes pushed so far), `head` is the read-cursor index into `stored`,
  and `limit` is the capacity in bytes;
* loops are written with an explicit fuel argument so that every definition
  is structurally recursive and kernel-computable; the fuel passed by each
  wrapper is an upper bound on the iteration count (each iteration strictly
  advances a cursor), so the fuel-exhausted branch, which returns the same
  value as the normal loop exit, is never taken from the wrappers.
-/

namespace cinekav

/-- Embeds `cinekav::Buffer` (avlib.hpp lines 71-170, avlib.cpp).
`stored` holds the bytes in `[base, tail)`, so the `tail` cursor is
`stored.length`; `head` is the read cursor; `limit` the capacity. -/
structure Buffer where
  stored : List Nat
  head : Nat
  limit : Nat
  overflow : Bool
deriving DecidableEq, Repr

namespace Buffer

/-- Embeds `Buffer::size()`, the readable span `tail - head`. -/
def size (b : Buffer) : Nat := b.stored.length - b.head

/-- Embeds `Buffer::available()`, the writable span `limit - tail`.
Note that mpegts.cpp calls this `writeAvailable()` and uses `available()`
for the readable span; the embedding of mpegts.cpp maps `writeAvailable`
to `available` and its `available` to `size` accordingly. -/
def available (b : Buffer) : Nat := b.limit - b.stored.length

/-- Embeds `Buffer::pullByte()` (avlib.hpp lines 102-107): it first sets the
sticky `overflow` flag when `head == tail` and returns 0 whenever the flag
is set, and otherwise returns the byte at `head` and advances `head`. -/
def pullByte (b : Buffer) : Nat × Buffer :=
  if b.overflow || (b.head == b.stored.length) then
    (0, { b with overflow := b.overflow || (b.head == b.stored.length) })
  else (b.stored.getD b.head 0, { b with head := b.head + 1 })

/-- Embeds `Buffer::pullUInt16()`: two `pullByte`s assembled big-endian. -/
def pullUInt16 (b : Buffer) : Nat × Buffer :=
  let r1 := b.pullByte
  let r2 := r1.2.pullByte
  ((r1.1 <<< 8) ||| r2.1, r2.2)

/-- Embeds `Buffer::pullUInt32()`: two `pullUInt16`s assembled big-endian. -/
def pullUInt32 (b : Buffer) : Nat × Buffer :=
  let r1 := b.pullUInt16
  let r2 := r1.2.pullUInt16
  ((r1.1 <<< 16) ||| r2.1, r2.2)

/-- Embeds `Buffer::skip(cnt)` (avlib.hpp lines 120-125): advances `head`,
sets `overflow` if it passed `tail`, and clamps `head` to `tail`. -/
def skip (b : Buffer) (cnt : Nat) : Buffer :=
  let h := b.head + cnt
  { b with head := min h b.stored.length,
           overflow := b.overflow || decide (h > b.stored.length) }

/-- Embeds `Buffer::pushBytes(bytes, cnt)` (avlib.cpp lines 156-164):
appends `min cnt available` bytes of `bytes` at `tail`, returning the count
copied. -/
def pushBytes (b : Buffer) (bytes : List Nat) (cnt : Nat) : Nat × Buffer :=
  let cnt := if b.available < cnt then b.available else cnt
  (cnt, { b with stored := b.stored ++ bytes.take cnt })

/-- Embeds `Buffer::pullBytesFrom(source, cnt, pulled)` (avlib.cpp lines
186-205): a mutual-clip copy from the readable span of `source` into this
buffer at `tail`.  Returns (this, source, pulled).  The identically
behaving `pullBytesInto(dst, cnt, pulled)` of the older API used by
mpegts.cpp, which copies from this buffer into `dst`, is embedded as
`dst.pullBytesFrom this cnt`. -/
def pullBytesFrom (b : Buffer) (source : Buffer) (cnt : Nat) :
    Buffer × Buffer × Nat :=
  let cnt := if cnt > source.size then source.size else cnt
  let cnt := if b.available < cnt then b.available else cnt
  let bytes := (source.stored.drop source.head).take cnt
  ({ b with stored := b.stored ++ bytes },
   { source with head := source.head + cnt }, cnt)

/-- One buffer operation, for quantifying over the operation sequences
(pushes, pulls, skips) of spec section 4.1. -/
inductive Op where
  | push (bytes : List Nat) (cnt : Nat)
  | pullByte
  | pullU16
  | pullU32
  | skip (cnt : Nat)
deriving DecidableEq, Repr

/-- Applies one operation, discarding any pulled value. -/
def applyOp (b : Buffer) : Op → Buffer
  | .push bytes cnt => (b.pushBytes bytes cnt).2
  | .pullByte => b.pullByte.2
  | .pullU16 => b.pullUInt16.2
  | .pullU32 => b.pullUInt32.2
  | .skip cnt => b.skip cnt

/-- Applies a sequence of operations left to right. -/
def applyOps (b : Buffer) (ops : List Op) : Buffer := ops.foldl applyOp b

/-- The cursor well-formedness from spec section 3:
`base ≤ head ≤ tail ≤ limit` (with `base = 0` and `tail = stored.length`). -/
def wf (b : Buffer) : Prop :=
  b.head ≤ b.stored.length ∧ b.stored.length ≤ b.limit

instance (b : Buffer) : Decidable b.wf := by unfold wf; infer_instance

end Buffer

namespace mpegts

/-- Embeds `cinekav::mpegts::Demuxer::Result` (mpegts.hpp lines 128-140). -/
inductive Result where
  | kComplete
  | kTruncated
  | kInvalidPacket
  | kContinue
  | kIOError
  | kOutOfMemory
  | kUnsupportedScramble
  | kUnsupportedTable
  | kUnsupported
  | kInternalError
deriving DecidableEq, Repr

/-- Embeds the `kSupportedStreamFormats` 16x16 table
(mpegts.cpp lines 18-35): row 0 column 15 marks AAC (0x0F), row 1
column 11 marks H.264 (0x1B). -/
def kSupportedStreamFormats : List (List Nat) :=
  [[0, 0, 0, 0, 0, 0, 0, 0, 0, 0, 0, 0, 0, 0, 0, 1],
   [0, 0, 0, 0, 0, 0, 0, 0, 0, 0, 0, 1, 0, 0, 0, 0],
   [0, 0, 0, 0, 0, 0, 0, 0, 0, 0, 0, 0, 0, 0, 0, 0],
   [0, 0, 0, 0, 0, 0, 0, 0, 0, 0, 0, 0, 0, 0, 0, 0],
   [0, 0, 0, 0, 0, 0, 0, 0, 0, 0, 0, 0, 0, 0, 0, 0],
   [0, 0, 0, 0, 0, 0, 0, 0, 0, 0, 0, 0, 0, 0, 0, 0],
   [0, 0, 0, 0, 0, 0, 0, 0, 0, 0, 0, 0, 0, 0, 0, 0],
   [0, 0, 0, 0, 0, 0, 0, 0, 0, 0, 0, 0, 0, 0, 0, 0],
   [0, 0, 0, 0, 0, 0, 0, 0, 0, 0, 0, 0, 0, 0, 0, 0],
   [0, 0, 0, 0, 0, 0, 0, 0, 0, 0, 0, 0, 0, 0, 0, 0],
   [0, 0, 0, 0, 0, 0, 0, 0, 0, 0, 0, 0, 0, 0, 0, 0],
   [0, 0, 0, 0, 0, 0, 0, 0, 0, 0, 0, 0, 0, 0, 0, 0],
   [0, 0, 0, 0, 0, 0, 0, 0, 0, 0, 0, 0, 0, 0, 0, 0],
   [0, 0, 0, 0, 0, 0, 0, 0, 0, 0, 0, 0, 0, 0, 0, 0],
   [0, 0, 0, 0, 0, 0, 0, 0, 0, 0, 0, 0, 0, 0, 0, 0],
   [0, 0, 0, 0, 0, 0, 0, 0, 0, 0, 0, 0, 0, 0, 0, 0]]

/-- Embeds the lookup `kSupportedStreamFormats[(st & 0xf0) >> 4][st & 0x0f]`
from `Demuxer::parseSectionPMT` (mpegts.cpp lines 679-680). -/
def validStreamType (st : Nat) : Nat :=
  (kSupportedStreamFormats.getD ((st &&& 0xf0) >>> 4) []).getD (st &&& 0x0f) 0

/-- Embeds `cinekav::mpegts::ElementaryStream` (mpegts.hpp lines 36-97):
the per-stream PES reassembly state.  The payload `BufferNode` chain of
`appendFrame` is not modeled (no claim concerns it); `header` is the
optional-header accumulation buffer, `headerFlags` the 16-bit PES flags. -/
structure ElementaryStream where
  type : Nat
  index : Nat
  dts : Nat
  lastPts : Nat
  firstPts : Nat
  firstDts : Nat
  frameLength : Nat
  frameCount : Nat
  header : Buffer
  headerFlags : Nat
  streamId : Nat
deriving DecidableEq, Repr

/-- Embeds the `ElementaryStream()` default constructor (mpegts.cpp lines
37-52): all counters zero, `header` a null buffer. -/
def ElementaryStream.init : ElementaryStream :=
  { type := 0, index := 0, dts := 0, lastPts := 0, firstPts := 0,
    firstDts := 0, frameLength := 0, frameCount := 0,
    header := ⟨[], 0, 0, false⟩, headerFlags := 0, streamId := 0 }

/-- Embeds the `ElementaryStream(type, index)` constructor (mpegts.cpp
lines 54-69). -/
def ElementaryStream.mkStream (type index : Nat) : ElementaryStream :=
  { ElementaryStream.init with type := type, index := index }

/-- Truncation of a C++ `int` expression to 32 bits followed by the
sign-extending conversion to `uint64_t`.  In
`ElementaryStream::pullTimecodeFromBuffer` the expression
`buffer.pullByte() << 29` is computed at type `int`; for byte values with
bit 2 set this overflows `int` (undefined behavior in C++); the embedding
models the ubiquitous wrap-around behavior of two's-complement targets. -/
def int32SignExtendToUInt64 (n : Nat) : Nat :=
  let r := n % 4294967296
  if r < 2147483648 then r else r + 18446744069414584320

/-- Embeds `ElementaryStream::pullTimecodeFromBuffer` (mpegts.cpp lines
244-252): five bytes packed into the 33-bit MPEG timecode
`(b0 << 29) | (b1 << 22) | ((b2 & 0xfe) << 14) | (b3 << 7) | ((b4 & 0xfe) >> 1)`,
with the first term computed in 32-bit `int` arithmetic. -/
def pullTimecodeFromBuffer (b : Buffer) : Nat × Buffer :=
  let r0 := b.pullByte
  let r1 := r0.2.pullByte
  let r2 := r1.2.pullByte
  let r3 := r2.2.pullByte
  let r4 := r3.2.pullByte
  (int32SignExtendToUInt64 (r0.1 <<< 29) |||
     (r1.1 <<< 22) ||| ((r2.1 &&& 0xfe) <<< 14) ||| (r3.1 <<< 7) |||
     ((r4.1 &&& 0xfe) >>> 1),
   r4.2)

/-- Embeds `ElementaryStream::updatePts` (mpegts.cpp lines 254-265):
updates `frameLength` from the previous `dts`, then `dts := pts`,
`lastPts := max lastPts pts`, and `firstPts := pts` if it was zero. -/
def ElementaryStream.updatePts (es : ElementaryStream) (pts : Nat) :
    ElementaryStream :=
  let es := if 0 < es.dts ∧ es.dts < pts then
    { es with frameLength := pts - es.dts } else es
  let es := { es with dts := pts }
  let es := if es.lastPts < pts then { es with lastPts := pts } else es
  if es.firstPts = 0 then { es with firstPts := pts } else es

/-- Embeds `ElementaryStream::updatePtsDts` (mpegts.cpp lines 267-278). -/
def ElementaryStream.updatePtsDts (es : ElementaryStream) (pts dts : Nat) :
    ElementaryStream :=
  let es := if 0 < es.dts ∧ es.dts < dts then
    { es with frameLength := dts - es.dts } else es
  let es := { es with dts := dts }
  let es := if es.lastPts < pts then { es with lastPts := pts } else es
  if es.firstDts = 0 then { es with firstDts := dts } else es

/-- Embeds the header-interpretation block of
`ElementaryStream::parseHeader` (mpegts.cpp lines 184-200), reached once
the optional header is fully accumulated (`writeAvailable() == 0`):
dispatch on `headerFlags & 0xc0` - `0x80` parses one timecode and calls
`updatePts`, `0xc0` parses two and calls `updatePtsDts`. -/
def ElementaryStream.interpretFullHeader (es : ElementaryStream)
    (buffer : Buffer) : Int × ElementaryStream × Buffer :=
  if es.headerFlags &&& 0xc0 = 0x80 then
    let rt := pullTimecodeFromBuffer es.header
    ((0 : Int), ({ es with header := rt.2 }).updatePts rt.1, buffer)
  else if es.headerFlags &&& 0xc0 = 0xc0 then
    let rp := pullTimecodeFromBuffer es.header
    let rd := pullTimecodeFromBuffer rp.2
    ((0 : Int), ({ es with header := rd.2 }).updatePtsDts rp.1 rd.1, buffer)
  else ((0 : Int), es, buffer)

/-- Embeds the part of `ElementaryStream::parseHeader` after the
start-packet block (mpegts.cpp lines 173-203): accumulate into `header`
until its writable span is exhausted, then interpret the flags via
`interpretFullHeader`; returns the remaining header length (0 once fully
parsed). -/
def ElementaryStream.parseHeaderCommon (es : ElementaryStream)
    (buffer : Buffer) : Int × ElementaryStream × Buffer :=
  let hdrLen := es.header.available
  if hdrLen ≠ 0 then
    let pullLen := if hdrLen > buffer.size then buffer.size else hdrLen
    let r := es.header.pullBytesFrom buffer pullLen
    let es := { es with header := r.1 }
    let buffer := r.2.1
    let hdrLen2 := es.header.available
    if hdrLen2 = 0 then es.interpretFullHeader buffer
    else (Int.ofNat hdrLen2, es, buffer)
  else ((0 : Int), es, buffer)

/-- Embeds `ElementaryStream::parseHeader` (mpegts.cpp lines 140-204).
On a start packet: pull the 32-bit start code (must be `0x000001xx`),
record `streamId`, skip the 16-bit PES packet length, and unless the
stream id is `0xbe`/`0xbf` pull the 16-bit header flags (bits 14-15 must
be `10`, bits 12-13 must be `00`) and the optional-header length,
re-initializing `header` to that capacity when nonzero.  Always falls
through to `parseHeaderCommon`.  Returns -1 on an invalid packet. -/
def ElementaryStream.parseHeader (es : ElementaryStream) (buffer : Buffer)
    (start : Bool) : Int × ElementaryStream × Buffer :=
  if start then
    let r := buffer.pullUInt32
    let startCode := r.1
    let buffer := r.2
    if startCode &&& 0xffffff00 ≠ 0x00000100 then ((-1 : Int), es, buffer)
    else
      let es := { es with streamId := startCode &&& 0xff }
      let buffer := buffer.skip 2
      if es.streamId ≠ 0xbe ∧ es.streamId ≠ 0xbf then
        let rf := buffer.pullUInt16
        let es := { es with headerFlags := rf.1 }
        let buffer := rf.2
        if es.headerFlags &&& 0xc000 ≠ 0x8000 then ((-1 : Int), es, buffer)
        else if es.headerFlags &&& 0x3000 ≠ 0 then ((-1 : Int), es, buffer)
        else
          let rl := buffer.pullByte
          let buffer := rl.2
          let es := if 0 < rl.1 then
            { es with header := ⟨[], 0, rl.1, false⟩ } else es
          es.parseHeaderCommon buffer
      else es.parseHeaderCommon buffer
  else es.parseHeaderCommon buffer

/-- Embeds the node type tag of `Demuxer::BufferNode`
(mpegts.cpp lines 360-384). -/
inductive NodeType where
  | kNull
  | kPSI
  | kPES
deriving DecidableEq, Repr

/-- Embeds `Demuxer::BufferNode` (mpegts.cpp lines 360-384) as one entry of
the sorted PID list.  The PSI-specific union fields and the reassembly
buffer are not modeled (no claim concerns them); `progId` and `index` are
the `es` union fields, which are uninitialized for a fresh node and are
modeled as 0. -/
structure BufferNode where
  pid : Nat
  type : NodeType
  progId : Nat
  index : Nat
deriving DecidableEq, Repr

/-- A freshly constructed `BufferNode(pid, next)`: type `kNull`. -/
def BufferNode.fresh (pid : Nat) : BufferNode :=
  { pid := pid, type := .kNull, progId := 0, index := 0 }

/-- Embeds the walk of `Demuxer::createOrFindBuffer` (mpegts.cpp lines
744-761): `n` is the node the walk currently stands on (its pid is known
to be ≤ the searched pid), the list is the remainder after `n`. -/
def createOrFindWalk (n : BufferNode) : List BufferNode → Nat → List BufferNode
  | [], pid => if n.pid = pid then [n] else [n, BufferNode.fresh pid]
  | m :: rest, pid =>
    if pid < m.pid then
      if n.pid = pid then n :: m :: rest
      else n :: BufferNode.fresh pid :: m :: rest
    else n :: createOrFindWalk m rest pid

/-- Embeds `Demuxer::createOrFindBuffer` (mpegts.cpp lines 734-763):
find the node for `pid` in the PID-sorted list or insert a fresh one. -/
def createOrFindBuffer : List BufferNode → Nat → List BufferNode
  | [], pid => [BufferNode.fresh pid]
  | n :: rest, pid =>
    if pid < n.pid then BufferNode.fresh pid :: n :: rest
    else createOrFindWalk n rest pid

/-- Embeds the mutation `streamBuffer->type = kPES; es.progId = ...;
es.index = ...` on the node returned by `createOrFindBuffer`
(mpegts.cpp lines 686-688); in the list model the node with the given pid
is updated in place. -/
def setNodePES (nodes : List BufferNode) (pid progId index : Nat) :
    List BufferNode :=
  nodes.map fun n =>
    if n.pid = pid then { n with type := .kPES, progId := progId, index := index }
    else n

/-- Embeds `Program::findStream` (mpegts.cpp lines 346-356): search the
program by stream index. -/
def findStream (streams : List ElementaryStream) (index : Nat) :
    Option ElementaryStream :=
  streams.find? fun s => s.index = index

/-- The state threaded through the elementary-stream loop of
`Demuxer::parseSectionPMT`: the section buffer, the owning program's
streams (in `appendStream` creation order), the PID node list, and the
running `esIndex`. -/
structure PMTParseState where
  buffer : Buffer
  streams : List ElementaryStream
  nodes : List BufferNode
  esIndex : Nat
deriving DecidableEq, Repr

/-- Embeds the elementary-stream-info loop of `Demuxer::parseSectionPMT`
(mpegts.cpp lines 664-700): while more than 4 bytes (the trailing CRC-32)
remain, read `stream_type`, the elementary PID (top 3 bits must be set),
and the descriptor length, skip the descriptors, and for a supported
stream type mark the PID node as PES and create the stream if its index is
new.  `some result` is an early error return; `none` means the loop ended.
The fuel passed by `parseSectionPMT` is the buffer size, an upper bound on
the iteration count (each iteration consumes at least 5 bytes). -/
def pmtLoop (progId : Nat) : Nat → PMTParseState → Option Result × PMTParseState
  | 0, st => (none, st)
  | fuel + 1, st =>
    if st.buffer.size > 4 then
      let r1 := st.buffer.pullByte
      let streamType := r1.1
      let r2 := r1.2.pullUInt16
      if r2.1 &&& 0xe000 ≠ 0xe000 then
        (some .kInvalidPacket, { st with buffer := r2.2 })
      else
        let pidStream := r2.1 &&& 0x1fff
        let r3 := r2.2.pullUInt16
        let esDescLen := r3.1 &&& 0x03ff
        let buf := r3.2.skip esDescLen
        if validStreamType streamType ≠ 0 then
          let nodes := createOrFindBuffer st.nodes pidStream
          let esIndex := st.esIndex + 1
          let nodes := setNodePES nodes pidStream progId esIndex
          let streams :=
            if (findStream st.streams esIndex).isSome then st.streams
            else st.streams ++ [ElementaryStream.mkStream streamType esIndex]
          pmtLoop progId fuel
            { buffer := buf, streams := streams, nodes := nodes, esIndex := esIndex }
        else
          pmtLoop progId fuel { st with buffer := buf }
    else (none, st)

/-- Embeds `Demuxer::parseSectionPMT` (mpegts.cpp lines 638-703), entered
with the section buffer positioned after the 5-byte syntax-section
preamble: pull the PCR PID (top 3 bits must be set) and the program-info
length (top 4 bits must be set), skip the program descriptors, run the
elementary-stream loop, and require exactly the 4 CRC bytes to remain.
The owning program, found by id in `_programs`, is represented by its
stream list. -/
def parseSectionPMT (buffer : Buffer) (progId : Nat)
    (streams : List ElementaryStream) (nodes : List BufferNode) :
    Result × Buffer × List ElementaryStream × List BufferNode :=
  let r1 := buffer.pullUInt16
  let pidPCR := r1.1
  let r2 := r1.2.pullUInt16
  let progInfoLength := r2.1
  if pidPCR &&& 0xe000 ≠ 0xe000 then (.kInvalidPacket, r2.2, streams, nodes)
  else if progInfoLength &&& 0xf000 ≠ 0xf000 then
    (.kInvalidPacket, r2.2, streams, nodes)
  else
    let buf := r2.2.skip (progInfoLength &&& 0x03ff)
    let res := pmtLoop progId buf.size
      { buffer := buf, streams := streams, nodes := nodes, esIndex := 0 }
    match res.1 with
    | some r => (r, res.2.buffer, res.2.streams, res.2.nodes)
    | none =>
      (if res.2.buffer.size = 4 then .kContinue else .kInvalidPacket,
       res.2.buffer, res.2.streams, res.2.nodes)

/-- Byte encoding of one PMT elementary-stream entry
`(stream_type, elementary_pid, descriptor bytes)`: the PID carries the
`0b111` marker in its top 3 bits and the descriptor length the `0b1111`
marker in its top 4 bits, as `parseSectionPMT` requires. -/
def encodePMTEntry (e : Nat × Nat × List Nat) : List Nat :=
  [e.1, 0xe0 ||| (e.2.1 >>> 8), e.2.1 &&& 0xff,
   0xf0 ||| ((e.2.2.length >>> 8) &&& 0x03), e.2.2.length &&& 0xff] ++ e.2.2

/-- Byte encoding of a list of PMT elementary-stream entries. -/
def encodePMTEntries (entries : List (Nat × Nat × List Nat)) : List Nat :=
  (entries.map encodePMTEntry).flatten

/-- Byte encoding of a whole PMT section body as `parseSectionPMT` receives
it: PCR PID, program-info length and descriptors, the entries, and a 4-byte
CRC-32. -/
def encodePMTSection (pcrPid : Nat) (progDesc : List Nat)
    (entries : List (Nat × Nat × List Nat)) (crc : List Nat) : List Nat :=
  [0xe0 ||| (pcrPid >>> 8), pcrPid &&& 0xff,
   0xf0 ||| ((progDesc.length >>> 8) &&& 0x03), progDesc.length &&& 0xff] ++
  progDesc ++ encodePMTEntries entries ++ crc

/-- The stream list built by one run of the elementary-stream loop of
`parseSectionPMT` over encoded entries, expressed by the table lookup of
the code: a supported entry appends a stream with the next index. -/
def pmtValidStreams : List (Nat × Nat × List Nat) → Nat → List ElementaryStream
  | [], _ => []
  | e :: rest, i =>
    if validStreamType e.1 ≠ 0 then
      ElementaryStream.mkStream e.1 (i + 1) :: pmtValidStreams rest (i + 1)
    else pmtValidStreams rest i

/-- The elementary PIDs of the entries the table lookup accepts. -/
def pmtValidPids : List (Nat × Nat × List Nat) → List Nat
  | [] => []
  | e :: rest =>
    if validStreamType e.1 ≠ 0 then e.2.1 :: pmtValidPids rest
    else pmtValidPids rest

/-- The number of entries the table lookup accepts. -/
def pmtValidCount : List (Nat × Nat × List Nat) → Nat
  | [] => 0
  | e :: rest =>
    if validStreamType e.1 ≠ 0 then pmtValidCount rest + 1
    else pmtValidCount rest

/-- The stream list the spec promises for a PMT: exactly the entries with
stream type AAC (0x0F) or H.264 (0x1B) produce streams, numbered from 1 in
entry order. -/
def pmtSpecStreams : List (Nat × Nat × List Nat) → Nat → List ElementaryStream
  | [], _ => []
  | e :: rest, i =>
    if e.1 = 0x0f ∨ e.1 = 0x1b then
      ElementaryStream.mkStream e.1 (i + 1) :: pmtSpecStreams rest (i + 1)
    else pmtSpecStreams rest i

/-- The elementary PIDs of the entries with stream type in {0x0F, 0x1B},
the PIDs the spec promises get marked as PES. -/
def pmtSpecPids : List (Nat × Nat × List Nat) → List Nat
  | [] => []
  | e :: rest =>
    if e.1 = 0x0f ∨ e.1 = 0x1b then e.2.1 :: pmtSpecPids rest
    else pmtSpecPids rest

/-- A stream state right after the start block of `parseHeader` has seen a
PTS-only PES: header flags `0x8080`, an empty header buffer of capacity 5,
and no timestamps yet. -/
def ptsOnlyFreshStream : ElementaryStream :=
  { ElementaryStream.init with
    headerFlags := 0x8080
    header := ⟨[], 0, 5, false⟩ }

/-- The PES packet bytes of spec scenario 2: start code `00 00 01 E0`,
packet length 0, optional-header flags `0x8080`, header length 5, and the
5 PTS bytes encoding the timecode 90000 under the code's extraction
formula. -/
def scenario2Packet : List Nat :=
  [0, 0, 1, 0xE0, 0, 0, 0x80, 0x80, 5, 0x00, 0x00, 0x05, 0xBF, 0x21]

end mpegts

/-- Embeds `cinekav::ESAccessUnit` (elemstream.hpp lines 21-27); `data` is
the offset of the unit from the payload buffer base. -/
structure ESAccessUnit where
  data : Nat
  dataSize : Nat
  pts : Nat
  dts : Nat
deriving DecidableEq, Repr

/-- Embeds `ElementaryStream::kAccessUnitCount` (elemstream.hpp line 83). -/
def kAccessUnitCount : Nat := 384

/-- Embeds `ElementaryStream::ESAccessUnitBatch` (elemstream.hpp lines
86-97): `arr = none` models `head == nullptr` (the entry array not yet
allocated); `arr = some l` models an allocated 384-entry array holding
`l.length` entries (`tail - head = l.length`, `limit - head = 384`). -/
structure ESAccessUnitBatch where
  arr : Option (List ESAccessUnit)
deriving DecidableEq, Repr

/-- Models the pair `(_ESAUBatch, _ESAccessUnitCount)` of
`cinekav::ElementaryStream`.  `_ESAUBatch` always points at the most
recently used batch; since `appendAccessUnit` re-points it to a newly
created batch whose `nextBatch` is null, the `nextBatch` chain reachable
from `_ESAUBatch` never holds more than the current batch, which is what
this structure stores. -/
structure ESAccessUnitStore where
  batch : Option ESAccessUnitBatch
  count : Nat
deriving DecidableEq, Repr

/-- The empty store of a fresh `ElementaryStream`. -/
def ESAccessUnitStore.init : ESAccessUnitStore := ⟨none, 0⟩

/-- Embeds `ElementaryStream::appendAccessUnit` (elemstream.cpp lines
165-200).  If there is no batch, one is created; if its array is
unallocated it is allocated; if the array is full (`tail == limit`) a new
batch is created and `auBatch` moves to it - but the new batch's array is
never allocated, so the subsequent write `_ESAUBatch->tail->data = data`
dereferences the null `tail` pointer: that is the `none` result. -/
def ESAccessUnitStore.appendAccessUnit (st : ESAccessUnitStore)
    (au : ESAccessUnit) : Option ESAccessUnitStore :=
  match st.batch with
  | none => some ⟨some ⟨some [au]⟩, st.count + 1⟩
  | some b =>
    match b.arr with
    | none => some ⟨some ⟨some [au]⟩, st.count + 1⟩
    | some l =>
      if l.length = kAccessUnitCount then none
      else some ⟨some ⟨some (l ++ [au])⟩, st.count + 1⟩

/-- Embeds `ElementaryStream::accessUnit(index)` (elemstream.cpp lines
202-217): walk the batches reachable from `_ESAUBatch` (a single batch, as
explained on `ESAccessUnitStore`) and index into the one covering `index`,
returning null past the end. -/
def ESAccessUnitStore.accessUnit (st : ESAccessUnitStore) (index : Nat) :
    Option ESAccessUnit :=
  match st.batch with
  | none => none
  | some b =>
    match b.arr with
    | none => none
    | some l => if index < l.length then l.get? index else none

/-- Appends a list of access units one by one, propagating the null
dereference of a full-batch rollover. -/
def ESAccessUnitStore.appendList (st : ESAccessUnitStore) :
    List ESAccessUnit → Option ESAccessUnitStore
  | [] => some st
  | au :: rest =>
    match st.appendAccessUnit au with
    | none => none
    | some st2 => st2.appendList rest

/-- Embeds `ElementaryStream::Type::kVideo_H264` (elemstream.hpp). -/
def kVideo_H264 : Nat := 0x1b

/-- Embeds `ElementaryStream::Type::kAudio_AAC` (elemstream.hpp). -/
def kAudio_AAC : Nat := 0x0f

/-- Embeds the NAL-boundary decision block of
`ElementaryStream::parseH264Stream` (elemstream.cpp lines 243-289),
reached when a `00 00 01` start code sits at offset `head`: the NAL type
is the low 5 bits of the next byte, and the block yields the new
`au_start` (as an offset), the new `VCLcheck` flag, and whether a pending
access unit ends here. -/
def h264Step (data : List Nat) (head : Nat) (auStart : Option Nat)
    (vcl : Bool) : Option Nat × Bool × Bool :=
  let nalType := data.getD (head + 3) 0 &&& 0x1f
  if 0 < nalType ∧ nalType < 0x0a then
    if vcl then
      if nalType < 0x06 then (auStart, false, false)
      else (auStart, true, false)
    else
      if 0x06 ≤ nalType then
        match auStart with
        | none => (some head, true, false)
        | some s => (some s, true, true)
      else
        if data.getD (head + 4) 0 &&& 0x80 ≠ 0 then
          match auStart with
          | none => (some head, vcl, false)
          | some s => (some s, vcl, true)
        else (auStart, vcl, false)
  else (auStart, vcl, false)

/-- Embeds the while loop of `ElementaryStream::parseH264Stream`
(elemstream.cpp lines 227-299) over the payload bytes `data`:
`head`/`tail`/`auStart` are the parser cursors (offsets), `vcl` is
`_parser.VCLcheck`.  Emitted access units (the `appendAccessUnit` calls,
stamped with the stream's current `pts`/`dts`) are returned in order,
together with the final cursors.  The loop runs while `head + 4 < tail`;
at a `00 00 01` start code the boundary rules of `h264Step` are applied
and `head` advances by 4, otherwise by 1.  Fuel: each iteration strictly
increases `head`, so any fuel ≥ `tail - head` makes the fuel-exhausted
branch (which returns like the normal loop exit) unreachable; the wrapper
passes `tail`. -/
def parseH264Loop (pts dts : Nat) (data : List Nat) (tail : Nat) :
    Nat → Nat → Option Nat → Bool →
    Nat × Option Nat × Bool × List ESAccessUnit
  | 0, head, auStart, vcl => (head, auStart, vcl, [])
  | fuel + 1, head, auStart, vcl =>
    if head + 4 < tail then
      if data.getD head 0 = 0 ∧ data.getD (head + 1) 0 = 0 ∧
          data.getD (head + 2) 0 = 1 then
        let step := h264Step data head auStart vcl
        if step.2.2 then
          let au : ESAccessUnit :=
            ⟨step.1.getD 0, head - step.1.getD 0, pts, dts⟩
          let r := parseH264Loop pts dts data tail fuel (head + 4) none false
          (r.1, r.2.1, r.2.2.1, au :: r.2.2.2)
        else parseH264Loop pts dts data tail fuel (head + 4) step.1 step.2.1
      else parseH264Loop pts dts data tail fuel (head + 1) auStart vcl
    else (head, auStart, vcl, [])

/-- Embeds `cinekav::ElementaryStream` (elemstream.hpp lines 29-116).
`buf` is the payload sub-buffer `_buffer` (never pulled from, so its head
stays at base); `phead`/`ptail`/`auStart`/`vclCheck` are the
`ESAccessUnitParserState` cursors as offsets (`phead = none` is the null
pointer of a parser not yet initialized); `emitted` is the ordered trace
of `appendAccessUnit` calls made by the scanner (their storage into the
batch list is modeled separately by `ESAccessUnitStore`). -/
structure ElementaryStream where
  buf : Buffer
  type : Nat
  progId : Nat
  index : Nat
  streamId : Nat
  pts : Nat
  dts : Nat
  phead : Option Nat
  ptail : Nat
  auStart : Option Nat
  vclCheck : Bool
  emitted : List ESAccessUnit
deriving DecidableEq, Repr

/-- Embeds `ElementaryStream::updatePts` (elemstream.cpp lines 153-157):
sets both `pts` and `dts`. -/
def ElementaryStream.updatePts (es : ElementaryStream) (pts : Nat) :
    ElementaryStream :=
  { es with pts := pts, dts := pts }

/-- Embeds `ElementaryStream::updatePtsDts` (elemstream.cpp lines
159-163). -/
def ElementaryStream.updatePtsDts (es : ElementaryStream) (pts dts : Nat) :
    ElementaryStream :=
  { es with pts := pts, dts := dts }

/-- Embeds the call `parseH264Stream()` (elemstream.cpp lines 227-299)
made from `appendPayload`: run the loop from the current cursors and
append the emissions to the trace. -/
def ElementaryStream.parseH264Stream (es : ElementaryStream) :
    ElementaryStream :=
  let r := parseH264Loop es.pts es.dts es.buf.stored es.ptail es.ptail
    (es.phead.getD 0) es.auStart es.vclCheck
  { es with phead := some r.1, auStart := r.2.1, vclCheck := r.2.2.1,
            emitted := es.emitted ++ r.2.2.2 }

/-- Embeds `ElementaryStream::appendPayload(source, len, pesStart)`
(elemstream.cpp lines 113-151).  If `len` exceeds the writable span the
shortfall is returned with nothing mutated.  Otherwise the parser cursors
are initialized on first use (`_parser.head = _buffer.head()`), `len`
bytes are pulled from `source`, `_parser.tail` is moved to the new buffer
tail, and for an H.264 stream the scanner runs over the fresh region.
Returns `(len - pulled, stream, source)`. -/
def ElementaryStream.appendPayload (es : ElementaryStream) (source : Buffer)
    (len : Nat) (pesStart : Bool) : Nat × ElementaryStream × Buffer :=
  if len > es.buf.available then (len - es.buf.available, es, source)
  else
    let es :=
      match es.phead with
      | none => { es with phead := some es.buf.head, ptail := es.buf.head,
                          auStart := none, vclCheck := false }
      | some _ => es
    if len = 0 then (len, es, source)
    else
      let r := es.buf.pullBytesFrom source len
      let es := { es with buf := r.1 }
      let source := r.2.1
      let pulled := r.2.2
      let es := { es with ptail := es.buf.stored.length }
      let es := if es.type = kVideo_H264 then es.parseH264Stream else es
      (len - pulled, es, source)

/-- Runs a sequence of `appendPayload` calls (source bytes, length,
pes-start flag), keeping the stream state. -/
def runAppendPayloads (es : ElementaryStream) :
    List (Buffer × Nat × Bool) → ElementaryStream
  | [] => es
  | c :: rest => runAppendPayloads (es.appendPayload c.1 c.2.1 c.2.2).2.1 rest

/-- The persistent scanner invariant of a `cinekav::ElementaryStream`
(spec section 4.7): the payload buffer respects its capacity, a pending
`au_start` offset never exceeds the scan head, and every emitted access
unit ends strictly before the buffer tail. -/
def ElementaryStream.scanInv (es : ElementaryStream) : Prop :=
  es.buf.stored.length ≤ es.buf.limit ∧
  (∀ s, es.auStart = some s → s ≤ es.phead.getD 0) ∧
  ∀ au ∈ es.emitted, au.data + au.dataSize < es.buf.stored.length

/-- The H.264 payload of spec scenario 4: AUD, 3 filler bytes, SPS,
5 filler bytes, IDR slice with `first_mb_in_slice` set, 10 filler bytes,
and a second AUD. -/
def scenario4Payload : List Nat :=
  [0, 0, 1, 0x09] ++ List.replicate 3 0xaa ++
  [0, 0, 1, 0x67] ++ List.replicate 5 0xaa ++
  [0, 0, 1, 0x65, 0x80] ++ List.replicate 10 0xaa ++
  [0, 0, 1, 0x09]

/-- A fresh H.264 elementary stream over an empty 64-byte payload
sub-buffer, with current timestamps `pts = 1000`, `dts = 900`. -/
def scenario4Stream : ElementaryStream :=
  { buf := ⟨[], 0, 64, false⟩, type := kVideo_H264, progId := 1, index := 1,
    streamId := 0xe0, pts := 1000, dts := 900, phead := none, ptail := 0,
    auStart := none, vclCheck := false, emitted := [] }

/-- Exact decimal number `mantissa / 10 ^ exponent`: the model of the C++
`float` duration fields.  The playlists under test carry short decimal
literals (such as `9.009` and `10`), which `std::stof` parses and whose
IEEE rounding plays no role in any claim, so durations are carried as the
exact decimal value in the canonical form produced by `stofModel`. -/
structure Decimal where
  mantissa : Nat
  exponent : Nat
deriving DecidableEq, Repr

/-- Embeds `HLSPlaylist::Segment` (hlsplaylist.hpp lines 33-51). -/
structure Segment where
  uri : List Char
  duration : Decimal
deriving DecidableEq, Repr

/-- Embeds `cinekav::HLSPlaylist` (hlsplaylist.hpp lines 30-71); the `_uri`
of the playlist itself is not modeled (no claim concerns it). -/
structure HLSPlaylist where
  seqNo : Int
  targetDuration : Decimal
  version : Int
  segments : List Segment
deriving DecidableEq, Repr

/-- Embeds the `HLSPlaylist()` constructor: `seqNo 0`, duration 0,
version 1, no segments. -/
def HLSPlaylist.init : HLSPlaylist :=
  { seqNo := 0, targetDuration := ⟨0, 0⟩, version := 1, segments := [] }

/-- Embeds the parser state enum of `HLSPlaylistParser`
(hlsplaylist.hpp line 82). -/
inductive PlaylistParserState where
  | kInit
  | kInputLine
  | kPlaylistLine
deriving DecidableEq, Repr

/-- Embeds `cinekav::HLSPlaylistParser` (hlsplaylist.hpp lines 74-84):
the line state machine and the scratch `_info` segment. -/
structure HLSPlaylistParser where
  state : PlaylistParserState
  info : Segment
deriving DecidableEq, Repr

/-- Embeds the `HLSPlaylistParser()` constructor: state `kInit`,
value-initialized `_info` (empty uri, zero duration). -/
def HLSPlaylistParser.init : HLSPlaylistParser :=
  { state := .kInit, info := ⟨[], ⟨0, 0⟩⟩ }

/-- The whitespace set of the `find_first_not_of(" \r\n\t")` trimming in
`HLSPlaylistParser::parse`. -/
def isTrimChar (c : Char) : Bool :=
  c = ' ' || c = '\r' || c = '\n' || c = '\t'

/-- The trimmed line `line.substr(fpos, lpos - fpos + 1)` where
`fpos`/`lpos` are the first/last positions not in the whitespace set;
empty when every character is whitespace (the parser returns early
then). -/
def trimLine (line : List Char) : List Char :=
  ((line.dropWhile isTrimChar).reverse.dropWhile isTrimChar).reverse

/-- Numeric value of a decimal digit run. -/
def digitsToNat (ds : List Char) : Nat :=
  ds.foldl (fun a c => a * 10 + (c.toNat - 48)) 0

/-- Embeds `std::stoi` for the trimmed numeric fields of a playlist:
an optional minus sign followed by decimal digits (the inputs under test
are plain decimal integers). -/
def stoiModel (s : List Char) : Int :=
  match s with
  | '-' :: rest => -(digitsToNat (rest.takeWhile Char.isDigit) : Int)
  | _ => (digitsToNat (s.takeWhile Char.isDigit) : Int)

/-- Embeds `std::stof` for the duration fields of a playlist as the exact
decimal value: integer digits, optionally a point and fraction digits
(the inputs under test are plain nonnegative decimal literals). -/
def stofModel (s : List Char) : Decimal :=
  let ip := s.takeWhile Char.isDigit
  let rest := s.drop ip.length
  match rest with
  | '.' :: rest2 =>
    let fp := rest2.takeWhile Char.isDigit
    ⟨digitsToNat ip * 10 ^ fp.length + digitsToNat fp, fp.length⟩
  | _ => ⟨digitsToNat ip, 0⟩

/-- Embeds `HLSPlaylistParser::parse(playlist, line)` (hlsplaylist.cpp
lines 81-172).  The line is trimmed (early return when all whitespace).
In `kInit` the literal `#EXTM3U` advances to `kInputLine`.  In
`kInputLine` a `#`-line with a `:` at `paramSize` is dispatched on its
tag (the C++ `valueSize` is positive in every case and `substr` clamps,
so each value substring is `drop valuePos`): `#EXT-X-VERSION` (only once),
`#EXT-X-TARGETDURATION`, `#EXT-X-MEDIA-SEQUENCE`, and `#EXTINF`, which
records the duration up to the comma and then either moves to
`kPlaylistLine` (nothing after the comma) or stores the trailing text as
the scratch uri without appending a segment.  In `kPlaylistLine` the line
becomes the uri and the segment is appended (the move of `_info` leaves
an empty uri and zero duration). -/
def HLSPlaylistParser.parse (p : HLSPlaylistParser) (playlist : HLSPlaylist)
    (line : List Char) : HLSPlaylistParser × HLSPlaylist :=
  let t := trimLine line
  if t.isEmpty then (p, playlist)
  else
    match p.state with
    | .kInit =>
      if t = "#EXTM3U".toList then ({ p with state := .kInputLine }, playlist)
      else (p, playlist)
    | .kInputLine =>
      if t.headD ' ' = '#' then
        match t.findIdx? (fun c => c = ':') with
        | none => (p, playlist)
        | some paramSize =>
          let valuePos := paramSize + 1
          if t.take paramSize = "#EXT-X-VERSION".toList then
            if playlist.version = 1 then
              (p, { playlist with version := stoiModel (t.drop valuePos) })
            else (p, playlist)
          else if t.take paramSize = "#EXT-X-TARGETDURATION".toList then
            (p, { playlist with targetDuration := stofModel (t.drop valuePos) })
          else if t.take paramSize = "#EXT-X-MEDIA-SEQUENCE".toList then
            (p, { playlist with seqNo := stoiModel (t.drop valuePos) })
          else if t.take paramSize = "#EXTINF".toList then
            match (t.drop valuePos).findIdx? (fun c => c = ',') with
            | none => (p, playlist)
            | some d =>
              let delim := valuePos + d
              let p2 := { p with info :=
                { p.info with
                  duration := stofModel ((t.drop valuePos).take (delim - valuePos)) } }
              if delim + 1 ≥ t.length then
                ({ p2 with state := .kPlaylistLine }, playlist)
              else
                ({ p2 with info := { p2.info with uri := t.drop (delim + 1) } },
                 playlist)
          else (p, playlist)
      else (p, playlist)
    | .kPlaylistLine =>
      ({ p with state := .kInputLine, info := ⟨[], ⟨0, 0⟩⟩ },
       { playlist with segments :=
          playlist.segments ++ [⟨t, p.info.duration⟩] })

/-- Feeds lines to the media-playlist parser one at a time. -/
def parsePlaylistLines (p : HLSPlaylistParser) (pl : HLSPlaylist) :
    List (List Char) → HLSPlaylistParser × HLSPlaylist
  | [] => (p, pl)
  | l :: rest =>
    let r := p.parse pl l
    parsePlaylistLines r.1 r.2 rest

/-- The media playlist of spec scenario 6, one line per parse call. -/
def scenario6Lines : List (List Char) :=
  ["#EXTM3U", "#EXT-X-TARGETDURATION:10", "#EXT-X-MEDIA-SEQUENCE:42",
   "#EXTINF:9.009,", "seg0.ts", "#EXTINF:9.009,title", "seg1.ts"].map
    String.toList

/-- Embeds the `_state` enum of `cinekav::HLStream`
(hlstream.hpp lines 57-71). -/
inductive HLState where
  | kOpenRootList
  | kReadRootList
  | kOpenMediaList
  | kReadMediaList
  | kDownloadSegment
  | kOpenSegment
  | kReadSegment
  | kNoStreamError
  | kInStreamError
  | kMemoryError
  | kInternalError
deriving DecidableEq, Repr

/-- Embeds `StreamInputCallbacks::Result` (avstream.hpp lines 63-69). -/
inductive PollResult where
  | kInvalid
  | kPending
  | kComplete
  | kError
deriving DecidableEq, Repr

/-- The orchestrator state relevant to the media-playlist claims: the
machine state, the `available` flag of each master-playlist entry, and the
`_toParsePlaylist` iterator as an index. -/
structure HLStreamModel where
  state : HLState
  avails : List Bool
  toParse : Nat
deriving DecidableEq, Repr

/-- Embeds the joint `kOpenRootList`/`kOpenMediaList`/`kOpenSegment`
branch of `HLStream::update` (hlstream.cpp lines 120-171).  The poll
status, file size and `obtain` success are supplied by the host.  The
trailing block is translated literally from the source: it tests the
already reassigned `_state` against `kOpenMediaList` inside a block
requiring `_state == kNoStreamError`, so the `available = false` marking
is unreachable. -/
def updateOpenBranch (m : HLStreamModel) (poll : PollResult) (fileSize : Nat)
    (obtainOk : Bool) : HLStreamModel :=
  let m2 :=
    if poll = .kComplete then
      if fileSize ≠ 0 then
        if obtainOk then
          { m with state :=
              match m.state with
              | .kOpenRootList => .kReadRootList
              | .kOpenMediaList => .kReadMediaList
              | .kOpenSegment => .kReadSegment
              | _ => .kInternalError }
        else { m with state := .kMemoryError }
      else { m with state := .kNoStreamError }
    else if poll = .kError ∨ poll = .kInvalid then
      { m with state := .kNoStreamError }
    else m
  if m2.state = .kNoStreamError then
    if m2.state = .kOpenMediaList then
      { m2 with avails := m2.avails.set m2.toParse false }
    else m2
  else m2

/-- Embeds the `kReadMediaList` branch of `HLStream::update`
(hlstream.cpp lines 225-277).  On completion the fetched playlist is
parsed (the parse itself has no bearing on this model), its entry is
marked available, and the iterator advances: to `kOpenMediaList` for the
next entry, or to `kDownloadSegment` after the last.  On a poll error the
state becomes `kNoStreamError` and the entry is marked unavailable. -/
def updateReadMediaListBranch (m : HLStreamModel) (poll : PollResult) :
    HLStreamModel :=
  let m2 :=
    if poll = .kComplete then
      let ma := { m with avails := m.avails.set m.toParse true }
      let mb := { ma with toParse := ma.toParse + 1 }
      if mb.toParse < mb.avails.length then { mb with state := .kOpenMediaList }
      else { mb with state := .kDownloadSegment }
    else if poll = .kError ∨ poll = .kInvalid then
      { m with state := .kNoStreamError }
    else m
  if m2.state = .kNoStreamError then
    { m2 with avails := m2.avails.set m2.toParse false }
  else m2

/-- Embeds the `kInStreamError`/`kNoStreamError`/`kMemoryError`/default
branch of the `HLStream::update` switch (hlstream.cpp lines 344-348):
the error states are terminal, `update` does nothing in them. -/
def updateTerminalBranch (m : HLStreamModel) : HLStreamModel := m

namespace Buffer

theorem pullByte_of_overflow {b : Buffer} (h : b.overflow = true) :
    b.pullByte = (0, b) := by
  unfold pullByte
  simp only [h, Bool.true_or, if_pos]
  cases b
  simp_all

theorem pullByte_of_end {b : Buffer} (hov : b.overflow = false)
    (h : b.head = b.stored.length) :
    b.pullByte = (0, { b with overflow := true }) := by
  unfold pullByte
  simp [h, hov]

theorem pullByte_of_ne {b : Buffer} (hov : b.overflow = false)
    (h : ¬b.head = b.stored.length) :
    b.pullByte = (b.stored.getD b.head 0, { b with head := b.head + 1 }) := by
  unfold pullByte
  simp [h, hov]

theorem pullUInt16_eq (b : Buffer) :
    b.pullUInt16 =
      ((b.pullByte.1 <<< 8) ||| b.pullByte.2.pullByte.1,
       b.pullByte.2.pullByte.2) :=
  rfl

theorem pullUInt32_eq (b : Buffer) :
    b.pullUInt32 =
      ((b.pullUInt16.1 <<< 16) ||| b.pullUInt16.2.pullUInt16.1,
       b.pullUInt16.2.pullUInt16.2) :=
  rfl

theorem pullUInt16_of_overflow {b : Buffer} (h : b.overflow = true) :
    b.pullUInt16 = (0, b) := by
  rw [pullUInt16_eq, pullByte_of_overflow h, pullByte_of_overflow h]
  simp

theorem pullByte_wf {b : Buffer} (h : b.wf) : b.pullByte.2.wf := by
  rcases h with ⟨h1, h2⟩
  rcases hov : b.overflow with _ | _
  · by_cases he : b.head = b.stored.length
    · rw [pullByte_of_end hov he]
      exact ⟨h1, h2⟩
    · rw [pullByte_of_ne hov he]
      exact ⟨Nat.succ_le_of_lt (lt_of_le_of_ne h1 he), h2⟩
  · rw [pullByte_of_overflow hov]
    exact ⟨h1, h2⟩

theorem pullUInt16_wf {b : Buffer} (h : b.wf) : b.pullUInt16.2.wf := by
  have h1 := pullByte_wf (pullByte_wf h)
  rw [pullUInt16_eq]
  exact h1

theorem pullUInt32_wf {b : Buffer} (h : b.wf) : b.pullUInt32.2.wf := by
  have h1 := pullUInt16_wf (pullUInt16_wf h)
  rw [pullUInt32_eq]
  exact h1

theorem skip_wf {b : Buffer} (h : b.wf) (cnt : Nat) : (b.skip cnt).wf := by
  rcases h with ⟨_, h2⟩
  exact ⟨min_le_right _ _, h2⟩

theorem pushBytes_wf {b : Buffer} (h : b.wf) (bytes : List Nat) (cnt : Nat) :
    (b.pushBytes bytes cnt).2.wf := by
  rcases h with ⟨h1, h2⟩
  unfold pushBytes available
  refine ⟨?_, ?_⟩
  · simp only [List.length_append]
    exact le_trans h1 (Nat.le_add_right _ _)
  · simp only [List.length_append]
    split <;> rename_i hsp
    · have hle := List.length_take_le (b.limit - b.stored.length) bytes
      omega
    · have hle := List.length_take_le cnt bytes
      omega

theorem applyOp_wf {b : Buffer} (h : b.wf) (op : Op) : (b.applyOp op).wf := by
  cases op with
  | push bytes cnt => exact pushBytes_wf h bytes cnt
  | pullByte => exact pullByte_wf h
  | pullU16 => exact pullUInt16_wf h
  | pullU32 => exact pullUInt32_wf h
  | skip cnt => exact skip_wf h cnt

theorem applyOps_wf {b : Buffer} (h : b.wf) (ops : List Op) :
    (b.applyOps ops).wf := by
  induction ops generalizing b with
  | nil => exact h
  | cons op rest ih => exact ih (applyOp_wf h op)

theorem pullByte_raise {b : Buffer} (hov : b.overflow = false)
    (h2 : b.pullByte.2.overflow = true) :
    b.pullByte.2.head = b.pullByte.2.stored.length := by
  by_cases he : b.head = b.stored.length
  · rw [pullByte_of_end hov he]
    exact he
  · rw [pullByte_of_ne hov he] at h2
    exact absurd h2 (by simp [hov])

theorem pullUInt16_raise {b : Buffer} (hov : b.overflow = false)
    (h2 : b.pullUInt16.2.overflow = true) :
    b.pullUInt16.2.head = b.pullUInt16.2.stored.length := by
  rw [pullUInt16_eq] at h2 ⊢
  dsimp only at h2 ⊢
  rcases h1 : b.pullByte.2.overflow with _ | _
  · exact pullByte_raise h1 h2
  · rw [pullByte_of_overflow h1]
    exact pullByte_raise hov h1

theorem pullUInt32_raise {b : Buffer} (hov : b.overflow = false)
    (h2 : b.pullUInt32.2.overflow = true) :
    b.pullUInt32.2.head = b.pullUInt32.2.stored.length := by
  rw [pullUInt32_eq] at h2 ⊢
  dsimp only at h2 ⊢
  rcases h1 : b.pullUInt16.2.overflow with _ | _
  · exact pullUInt16_raise h1 h2
  · have hfix : b.pullUInt16.2.pullUInt16.2 = b.pullUInt16.2 := by
      rw [pullUInt16_of_overflow h1]
    rw [hfix] at h2 ⊢
    exact pullUInt16_raise hov h2

/-- A pull or skip that raises `overflow` (from clear to set) leaves
`head = tail`; a push never raises it. -/
theorem applyOp_overflow_head_eq_tail {b : Buffer} {op : Op}
    (hov : b.overflow = false) (hov2 : (b.applyOp op).overflow = true) :
    (b.applyOp op).head = (b.applyOp op).stored.length := by
  cases op with
  | push bytes cnt => exact absurd hov2 (by simp [applyOp, pushBytes, hov])
  | pullByte => exact pullByte_raise hov hov2
  | pullU16 => exact pullUInt16_raise hov hov2
  | pullU32 => exact pullUInt32_raise hov hov2
  | skip cnt =>
    simp only [applyOp, skip, hov, Bool.false_or, decide_eq_true_eq] at hov2 ⊢
    simp [Nat.min_eq_right (Nat.le_of_lt hov2)]

theorem shiftLeft_lor_distrib (a b n : Nat) :
    (a ||| b) <<< n = (a <<< n) ||| (b <<< n) := by
  apply Nat.eq_of_testBit_eq
  intro i
  simp only [Nat.testBit_shiftLeft, Nat.testBit_or]
  cases Nat.decLe n i with
  | isTrue h => simp [h]
  | isFalse h => simp [h]

theorem shiftLeft_shiftLeft (a m n : Nat) :
    (a <<< m) <<< n = a <<< (m + n) := by
  simp [Nat.shiftLeft_eq, Nat.mul_assoc, Nat.pow_add]

/-- Closed form of a `pullUInt16` on a buffer with fewer than 2 readable
bytes: overflow raises, `head` clamps to `tail`, and the lone readable
byte (if any) lands in the high-order position. -/
theorem pullUInt16_short {b : Buffer} (hov : b.overflow = false)
    (hwf : b.head ≤ b.stored.length) (h : b.size < 2) :
    b.pullUInt16 = ((b.stored.getD b.head 0) <<< 8,
      { b with head := b.stored.length, overflow := true }) := by
  by_cases he : b.head = b.stored.length
  · have hg : b.stored.getD b.head 0 = 0 :=
      List.getD_eq_default _ _ (le_of_eq he.symm)
    rw [pullUInt16_eq, pullByte_of_end hov he]
    dsimp only
    rw [pullByte_of_overflow rfl]
    obtain ⟨st, hd, lim, ov⟩ := b
    simp_all
  · have hlen : b.head + 1 = b.stored.length := by
      unfold size at h
      omega
    rw [pullUInt16_eq, pullByte_of_ne hov he]
    dsimp only
    rw [pullByte_of_end (b := { b with head := b.head + 1 }) hov hlen]
    obtain ⟨st, hd, lim, ov⟩ := b
    simp_all

/-- Closed form of a `pullUInt16` with at least 2 readable bytes: the two
bytes at `head` assembled big-endian, `head` advanced by 2. -/
theorem pullUInt16_full {b : Buffer} (hov : b.overflow = false)
    (h : 2 ≤ b.size) :
    b.pullUInt16 = (((b.stored.getD b.head 0) <<< 8) |||
        b.stored.getD (b.head + 1) 0,
      { b with head := b.head + 2 }) := by
  have he1 : ¬b.head = b.stored.length := by
    unfold size at h
    omega
  have he2 : ¬b.head + 1 = b.stored.length := by
    unfold size at h
    omega
  rw [pullUInt16_eq, pullByte_of_ne hov he1]
  dsimp only
  rw [pullByte_of_ne (b := { b with head := b.head + 1 }) hov he2]

/-- Closed form of a `pullUInt32` on a buffer with fewer than 4 readable
bytes: overflow raises and the readable bytes land in the most-significant
positions. -/
theorem pullUInt32_short {b : Buffer} (hov : b.overflow = false)
    (hwf : b.head ≤ b.stored.length) (h : b.size < 4) :
    b.pullUInt32 = (((b.stored.getD b.head 0) <<< 24) |||
        ((b.stored.getD (b.head + 1) 0) <<< 16) |||
        ((b.stored.getD (b.head + 2) 0) <<< 8),
      { b with head := b.stored.length, overflow := true }) := by
  by_cases h2 : b.size < 2
  · have hg1 : b.stored.getD (b.head + 1) 0 = 0 := by
      apply List.getD_eq_default
      unfold size at h2
      omega
    have hg2 : b.stored.getD (b.head + 2) 0 = 0 := by
      apply List.getD_eq_default
      unfold size at h2
      omega
    rw [pullUInt32_eq, pullUInt16_short hov hwf h2]
    dsimp only
    rw [pullUInt16_of_overflow rfl]
    rw [hg1, hg2, shiftLeft_shiftLeft]
    simp
  · have h2le : 2 ≤ b.size := Nat.le_of_not_lt h2
    have hs2 : ({ b with head := b.head + 2 } : Buffer).size < 2 := by
      unfold size at h2le h ⊢
      dsimp only
      omega
    have hwf2 : ({ b with head := b.head + 2 } : Buffer).head ≤
        ({ b with head := b.head + 2 } : Buffer).stored.length := by
      unfold size at h2le
      dsimp only
      omega
    rw [pullUInt32_eq, pullUInt16_full hov h2le]
    dsimp only
    rw [pullUInt16_short (b := { b with head := b.head + 2 }) hov hwf2 hs2]
    dsimp only
    rw [shiftLeft_lor_distrib, shiftLeft_shiftLeft, Nat.lor_assoc]

end Buffer

/-- Claim C6 (corrected): on a buffer with fewer than 2 (resp. 4) readable
bytes, `pullUInt16` (resp. `pullUInt32`) sets the overflow flag; the value
returned is not zero in general, but the readable bytes shifted into the
most-significant byte positions with zero fill (zero exactly when the
readable bytes are all zero, in particular when none remain). -/
theorem pull_short_read_sets_overflow (b : Buffer)
    (hov : b.overflow = false) (hwf : b.head ≤ b.stored.length) :
    (b.size < 2 →
      b.pullUInt16.2.overflow = true ∧
      b.pullUInt16.1 = (b.stored.getD b.head 0) <<< 8) ∧
    (b.size < 4 →
      b.pullUInt32.2.overflow = true ∧
      b.pullUInt32.1 = ((b.stored.getD b.head 0) <<< 24) |||
        ((b.stored.getD (b.head + 1) 0) <<< 16) |||
        ((b.stored.getD (b.head + 2) 0) <<< 8)) := by
  constructor
  · intro h
    rw [Buffer.pullUInt16_short hov hwf h]
    exact ⟨rfl, rfl⟩
  · intro h
    rw [Buffer.pullUInt32_short hov hwf h]
    exact ⟨rfl, rfl⟩

/-- Witness for C6: a buffer holding the single byte 1. -/
theorem pull_short_read_sets_overflow_witness :
    ((false = false ∧ 0 ≤ 1) ∧
     ((Buffer.mk [1] 0 1 false).size < 2 →
       (Buffer.mk [1] 0 1 false).pullUInt16.2.overflow = true ∧
       (Buffer.mk [1] 0 1 false).pullUInt16.1 =
         ((Buffer.mk [1] 0 1 false).stored.getD 0 0) <<< 8)) :=
  ⟨⟨rfl, by decide⟩,
   (pull_short_read_sets_overflow (Buffer.mk [1] 0 1 false) rfl (by decide)).1⟩

/-- Counterexample for C6 as stated: `pull_u16_be` on a buffer holding the
single byte 1 sets overflow but returns 256, not zero (and `pull_u32_be`
on bytes 1,2,3 returns `0x01020300`). -/
theorem pull_short_read_nonzero_counterexample :
    (Buffer.pullUInt16 ⟨[1], 0, 1, false⟩).2.overflow = true ∧
    (Buffer.pullUInt16 ⟨[1], 0, 1, false⟩).1 = 256 ∧
    ¬(Buffer.pullUInt16 ⟨[1], 0, 1, false⟩).1 = 0 ∧
    (Buffer.pullUInt32 ⟨[1, 2, 3], 0, 3, false⟩).2.overflow = true ∧
    (Buffer.pullUInt32 ⟨[1, 2, 3], 0, 3, false⟩).1 = 0x01020300 ∧
    ¬(Buffer.pullUInt32 ⟨[1, 2, 3], 0, 3, false⟩).1 = 0 := by
  decide

/-- Claim C7 (corrected): over any operation sequence from a well-formed
buffer, `head ≤ tail ≤ limit` holds after every operation; and any pull or
skip that raises the overflow flag (from clear to set) leaves
`head = tail`.  Once the sticky flag is set, however, a later push can
make `head < tail` with the flag still set (see the counterexample). -/
theorem cursor_invariant_and_overflow_raise (b : Buffer)
    (ops : List Buffer.Op) (op : Buffer.Op) (hwf : b.wf) :
    (b.applyOps ops).wf ∧
    ((b.applyOps ops).overflow = false →
      ((b.applyOps ops).applyOp op).overflow = true →
      ((b.applyOps ops).applyOp op).head =
        ((b.applyOps ops).applyOp op).stored.length) := by
  refine ⟨Buffer.applyOps_wf hwf ops, ?_⟩
  intro h1 h2
  exact Buffer.applyOp_overflow_head_eq_tail h1 h2

/-- Witness for C7: an empty 4-byte buffer, two pushes and a pull. -/
theorem cursor_invariant_and_overflow_raise_witness :
    ((Buffer.mk [] 0 4 false).wf ∧
     ((Buffer.applyOps ⟨[], 0, 4, false⟩ [.push [5, 6] 2]).wf ∧
      ((Buffer.applyOps ⟨[], 0, 4, false⟩ [.push [5, 6] 2]).overflow = false →
        ((Buffer.applyOps ⟨[], 0, 4, false⟩ [.push [5, 6] 2]).applyOp
            .pullByte).overflow = true →
        ((Buffer.applyOps ⟨[], 0, 4, false⟩ [.push [5, 6] 2]).applyOp
            .pullByte).head =
          ((Buffer.applyOps ⟨[], 0, 4, false⟩ [.push [5, 6] 2]).applyOp
              .pullByte).stored.length))) :=
  ⟨by decide,
   cursor_invariant_and_overflow_raise ⟨[], 0, 4, false⟩ [.push [5, 6] 2]
     .pullByte (by decide)⟩

/-- Counterexample for C7 as stated: on a fresh 4-byte buffer, a pull on
empty raises overflow with `head = tail = 0`; a push then stores 2 bytes;
the next pull leaves overflow set while `head = 0 ≠ 2 = tail`. -/
theorem overflow_head_ne_tail_counterexample :
    (Buffer.applyOps ⟨[], 0, 4, false⟩
        [.pullByte, .push [5, 6] 2, .pullByte]).overflow = true ∧
    ¬((Buffer.applyOps ⟨[], 0, 4, false⟩
        [.pullByte, .push [5, 6] 2, .pullByte]).head =
      (Buffer.applyOps ⟨[], 0, 4, false⟩
        [.pullByte, .push [5, 6] 2, .pullByte]).stored.length) := by
  decide

set_option maxRecDepth 8000

/-- Counterexample for C1 as stated: feeding the scenario-4 payload (AUD,
filler, SPS, filler, IDR with first_mb set, filler, second AUD) to the
H.264 scanner in one `appendPayload` emits no access unit at all - the
scan stops at `head + 4 < tail`, 4 bytes before the scan end, so the
second AUD is never examined, and no end-of-segment flush exists in the
code. -/
theorem h264_scenario4_no_emission_counterexample :
    (scenario4Stream.appendPayload ⟨scenario4Payload, 0, 35, false⟩ 35
        true).2.1.emitted.length = 0 ∧
    ¬((scenario4Stream.appendPayload ⟨scenario4Payload, 0, 35, false⟩ 35
        true).2.1.emitted.length = 1) := by
  decide

/-- Claim C1 (corrected): after the scenario-4 payload, the pending access
unit starts at the first AUD (offset 0) and nothing has been emitted; as
soon as one further payload byte arrives, exactly one access unit is
emitted, spanning from the first AUD up to but not including the second
AUD (offsets [0, 31)), tagged with the stream's current PTS 1000 and
DTS 900. -/
theorem h264_scenario4_emits_one_after_next_byte :
    (scenario4Stream.appendPayload ⟨scenario4Payload, 0, 35, false⟩ 35
        true).2.1.emitted = [] ∧
    (scenario4Stream.appendPayload ⟨scenario4Payload, 0, 35, false⟩ 35
        true).2.1.auStart = some 0 ∧
    ((scenario4Stream.appendPayload ⟨scenario4Payload, 0, 35, false⟩ 35
        true).2.1.appendPayload ⟨[0xaa], 0, 1, false⟩ 1 false).2.1.emitted =
      [⟨0, 31, 1000, 900⟩] := by
  decide

/-- Claim C3 (code_bug): parsing the scenario-6 playlist yields
`seq_no = 42` and `target_duration = 10.0` as claimed, but only ONE
segment (`seg0.ts`, duration 9.009): the `#EXTINF:9.009,title` line stores
the trailing text in the parser's scratch info without appending a
segment, and the following `seg1.ts` line is ignored in the `InputLine`
state, so the second segment is lost. -/
theorem media_playlist_inline_uri_segment_dropped :
    ((parsePlaylistLines HLSPlaylistParser.init HLSPlaylist.init
        scenario6Lines).2.seqNo = 42) ∧
    ((parsePlaylistLines HLSPlaylistParser.init HLSPlaylist.init
        scenario6Lines).2.targetDuration = ⟨10, 0⟩) ∧
    ((parsePlaylistLines HLSPlaylistParser.init HLSPlaylist.init
        scenario6Lines).2.segments =
      [⟨"seg0.ts".toList, ⟨9009, 3⟩⟩]) ∧
    ¬((parsePlaylistLines HLSPlaylistParser.init HLSPlaylist.init
        scenario6Lines).2.segments.length = 2) := by
  decide

/-- Claim C5 (code_bug): a failed media-playlist fetch does NOT proceed to
the next entry.  In the `kOpenMediaList` state a poll error yields the
terminal `kNoStreamError` state and leaves every `available` flag
untouched (the marking guard compares the already reassigned state and is
unreachable); in `kReadMediaList` a poll error marks the entry unavailable
but also yields terminal `kNoStreamError` without advancing
`_toParsePlaylist`; and `update` does nothing in `kNoStreamError`. -/
theorem media_list_fetch_failure_terminal :
    ((updateOpenBranch ⟨.kOpenMediaList, [true, true], 0⟩ .kError 0
        false).state = .kNoStreamError) ∧
    ((updateOpenBranch ⟨.kOpenMediaList, [true, true], 0⟩ .kError 0
        false).avails = [true, true]) ∧
    ((updateOpenBranch ⟨.kOpenMediaList, [true, true], 0⟩ .kInvalid 0
        false).state = .kNoStreamError) ∧
    ((updateReadMediaListBranch ⟨.kReadMediaList, [true, true], 0⟩
        .kError).state = .kNoStreamError) ∧
    ((updateReadMediaListBranch ⟨.kReadMediaList, [true, true], 0⟩
        .kError).avails = [false, true]) ∧
    ((updateReadMediaListBranch ⟨.kReadMediaList, [true, true], 0⟩
        .kError).toParse = 0) ∧
    (updateTerminalBranch ⟨.kNoStreamError, [true, true], 0⟩ =
      ⟨.kNoStreamError, [true, true], 0⟩) := by
  decide

/-- Claim C9 (code_bug): the first 384 `appendAccessUnit` calls fill one
batch, after which `accessUnitCount` is 384 and `accessUnit i` returns the
i-th appended unit for `i < 384` and null for `i ≥ 384`; but the 385th
append rolls over to a new batch whose entry array is never allocated and
dereferences its null `tail` pointer (the `none` result). -/
theorem access_unit_batch_rollover_crash :
    (ESAccessUnitStore.init.appendList
        ((List.range 384).map fun i => ⟨i, 1, i, i⟩) =
      some ⟨some ⟨some ((List.range 384).map fun i => ⟨i, 1, i, i⟩)⟩, 384⟩) ∧
    ((ESAccessUnitStore.mk
        (some ⟨some ((List.range 384).map fun i => ⟨i, 1, i, i⟩)⟩)
        384).accessUnit 0 = some ⟨0, 1, 0, 0⟩) ∧
    ((ESAccessUnitStore.mk
        (some ⟨some ((List.range 384).map fun i => ⟨i, 1, i, i⟩)⟩)
        384).accessUnit 383 = some ⟨383, 1, 383, 383⟩) ∧
    ((ESAccessUnitStore.mk
        (some ⟨some ((List.range 384).map fun i => ⟨i, 1, i, i⟩)⟩)
        384).accessUnit 384 = none) ∧
    (ESAccessUnitStore.init.appendList
        ((List.range 385).map fun i => ⟨i, 1, i, i⟩) = none) := by
  decide

/-- Claim C10 (confirmed): when `len` exceeds the payload buffer's
writable span, `appendPayload` returns the shortfall and mutates nothing:
the stream (payload buffer, cursors, scan state, emission trace) and the
source buffer are returned unchanged. -/
theorem appendPayload_shortfall_no_mutation (es : ElementaryStream)
    (source : Buffer) (len : Nat) (pesStart : Bool)
    (h : len > es.buf.available) :
    es.appendPayload source len pesStart =
      (len - es.buf.available, es, source) := by
  unfold ElementaryStream.appendPayload
  rw [if_pos h]

/-- Witness for C10: a 100-byte append on the 64-byte scenario-4 stream. -/
theorem appendPayload_shortfall_no_mutation_witness :
    (100 > scenario4Stream.buf.available ∧
     scenario4Stream.appendPayload ⟨[7], 0, 1, false⟩ 100 true =
       (100 - scenario4Stream.buf.available, scenario4Stream,
        ⟨[7], 0, 1, false⟩)) :=
  ⟨by decide,
   appendPayload_shortfall_no_mutation scenario4Stream ⟨[7], 0, 1, false⟩
     100 true (by decide)⟩

/-- Introduction form of the scanner invariant. -/
theorem scanInv_intro (es : ElementaryStream)
    (h1 : es.buf.stored.length ≤ es.buf.limit)
    (h2 : ∀ s, es.auStart = some s → s ≤ es.phead.getD 0)
    (h3 : ∀ au ∈ es.emitted, au.data + au.dataSize < es.buf.stored.length) :
    es.scanInv := ⟨h1, h2, h3⟩

/-- Any `au_start` offset produced by the boundary block is at most the
scan head at which the block ran. -/
theorem h264Step_start_le (data : List Nat) (head : Nat)
    (auStart : Option Nat) (vcl : Bool)
    (hau : ∀ s, auStart = some s → s ≤ head) :
    ∀ s, (h264Step data head auStart vcl).1 = some s → s ≤ head := by
  intro s hs
  unfold h264Step at hs
  cases hA : auStart with
  | none =>
    subst hA
    dsimp only at hs
    repeat' split at hs
    all_goals simp_all
  | some t =>
    have ht := hau t hA
    subst hA
    dsimp only at hs
    repeat' split at hs
    all_goals simp_all

/-- The boundary block only closes an access unit when one was pending,
and then reports its pending start offset. -/
theorem h264Step_emit (data : List Nat) (head : Nat)
    (auStart : Option Nat) (vcl : Bool)
    (h : (h264Step data head auStart vcl).2.2 = true) :
    ∃ s, auStart = some s ∧ (h264Step data head auStart vcl).1 = some s := by
  unfold h264Step at h ⊢
  cases auStart with
  | none =>
    dsimp only at h ⊢
    repeat' split at h
    all_goals simp_all
  | some t =>
    dsimp only at h ⊢
    repeat' split at h
    all_goals repeat' split
    all_goals simp_all
    all_goals omega

/-- Bounds of the scan loop: if the pending start offset is at most the
scan head, then the final start offset is at most the final head, and
every emitted access unit ends strictly before `tail`. -/
theorem parseH264Loop_bounds (pts dts : Nat) (data : List Nat) (tail : Nat) :
    ∀ (fuel head : Nat) (auStart : Option Nat) (vcl : Bool),
      (∀ s, auStart = some s → s ≤ head) →
      (∀ s,
        (parseH264Loop pts dts data tail fuel head auStart vcl).2.1 = some s →
          s ≤ (parseH264Loop pts dts data tail fuel head auStart vcl).1) ∧
      ∀ au ∈ (parseH264Loop pts dts data tail fuel head auStart vcl).2.2.2,
        au.data + au.dataSize < tail := by
  intro fuel
  induction fuel with
  | zero =>
    intro head auStart vcl hau
    refine ⟨fun s hs => hau s hs, fun au hmem => ?_⟩
    simp [parseH264Loop] at hmem
  | succ n ih =>
    intro head auStart vcl hau
    unfold parseH264Loop
    by_cases hlt : head + 4 < tail
    · rw [if_pos hlt]
      by_cases hsc : data.getD head 0 = 0 ∧ data.getD (head + 1) 0 = 0 ∧
          data.getD (head + 2) 0 = 1
      · rw [if_pos hsc]
        dsimp only
        by_cases hemit : (h264Step data head auStart vcl).2.2 = true
        · rw [if_pos hemit]
          obtain ⟨s, hs, hs1⟩ := h264Step_emit data head auStart vcl hemit
          have hsle : s ≤ head := hau s hs
          have hrec := ih (head + 4) none false (fun t ht => by cases ht)
          dsimp only
          refine ⟨hrec.1, fun au hmem => ?_⟩
          rcases List.mem_cons.mp hmem with heq | hmem2
          · subst heq
            rw [hs1]
            dsimp only [Option.getD]
            omega
          · exact hrec.2 au hmem2
        · rw [if_neg hemit]
          exact ih (head + 4)
            (h264Step data head auStart vcl).1
            (h264Step data head auStart vcl).2.1
            (fun t ht =>
              Nat.le_trans (h264Step_start_le data head auStart vcl hau t ht)
                (by omega))
      · rw [if_neg hsc]
        exact ih (head + 1) auStart vcl
          (fun s hs => Nat.le_succ_of_le (hau s hs))
    · rw [if_neg hlt]
      exact ⟨fun s hs => hau s hs, fun au hmem => by cases hmem⟩

/-- The mutual-clip copy keeps the head and limit of the destination, only
appends to its stored bytes, and never grows them past the writable
span. -/
theorem pullBytesFrom_spec (b source : Buffer) (cnt : Nat) :
    (b.pullBytesFrom source cnt).1.head = b.head ∧
    (b.pullBytesFrom source cnt).1.limit = b.limit ∧
    b.stored.length ≤ (b.pullBytesFrom source cnt).1.stored.length ∧
    (b.pullBytesFrom source cnt).1.stored.length ≤
      b.stored.length + b.available := by
  unfold Buffer.pullBytesFrom
  refine ⟨rfl, rfl, ?_, ?_⟩ <;>
    simp [List.length_take, List.length_drop] <;> split <;> split <;> omega

/-- A scan pass from `au_start ≤ head` with `ptail` inside the stored
bytes preserves the scanner invariant. -/
theorem parseH264Stream_scanInv (es : ElementaryStream)
    (hlim : es.buf.stored.length ≤ es.buf.limit)
    (htail : es.ptail ≤ es.buf.stored.length)
    (hau : ∀ s, es.auStart = some s → s ≤ es.phead.getD 0)
    (hem : ∀ au ∈ es.emitted, au.data + au.dataSize < es.buf.stored.length) :
    es.parseH264Stream.scanInv := by
  unfold ElementaryStream.parseH264Stream ElementaryStream.scanInv
  dsimp only
  have hb := parseH264Loop_bounds es.pts es.dts es.buf.stored es.ptail
    es.ptail (es.phead.getD 0) es.auStart es.vclCheck hau
  refine ⟨hlim, ?_, ?_⟩
  · intro s hs
    exact hb.1 s hs
  · intro au hmem
    rcases List.mem_append.mp hmem with hm1 | hm2
    · exact hem au hm1
    · exact lt_of_lt_of_le (hb.2 au hm2) htail

/-- Each `appendPayload` call preserves the scanner invariant. -/
theorem appendPayload_scanInv (es : ElementaryStream) (source : Buffer)
    (len : Nat) (ps : Bool) (h : es.scanInv) :
    (es.appendPayload source len ps).2.1.scanInv := by
  obtain ⟨hlim, hau, hem⟩ := h
  have hpb := pullBytesFrom_spec es.buf source len
  have hlen2 : (es.buf.pullBytesFrom source len).1.stored.length ≤
      (es.buf.pullBytesFrom source len).1.limit := by
    have h2 := hpb.2.1
    have h3 := hpb.2.2.1
    have h4 := hpb.2.2.2
    unfold Buffer.available at *
    omega
  have hmono : es.buf.stored.length ≤
      (es.buf.pullBytesFrom source len).1.stored.length := hpb.2.2.1
  unfold ElementaryStream.appendPayload
  by_cases h1 : len > es.buf.available
  · rw [if_pos h1]
    exact ⟨hlim, hau, hem⟩
  · rw [if_neg h1]
    dsimp only
    cases hph : es.phead with
    | none =>
      dsimp only
      by_cases h0 : len = 0
      · rw [if_pos h0]
        refine scanInv_intro _ hlim ?_ hem
        intro s hs
        cases hs
      · rw [if_neg h0]
        dsimp only
        by_cases htype : es.type = kVideo_H264
        · rw [if_pos htype]
          refine parseH264Stream_scanInv _ hlen2 (Nat.le_refl _) ?_ ?_
          · intro s hs
            cases hs
          · intro au hmem
            exact lt_of_lt_of_le (hem au hmem) hmono
        · rw [if_neg htype]
          refine scanInv_intro _ hlen2 ?_ ?_
          · intro s hs
            cases hs
          · intro au hmem
            exact lt_of_lt_of_le (hem au hmem) hmono
    | some p =>
      dsimp only
      by_cases h0 : len = 0
      · rw [if_pos h0]
        refine scanInv_intro _ hlim ?_ hem
        intro s hs
        exact hau s hs
      · rw [if_neg h0]
        dsimp only
        by_cases htype : es.type = kVideo_H264
        · rw [if_pos htype]
          refine parseH264Stream_scanInv _ hlen2 (Nat.le_refl _) ?_ ?_
          · intro s hs
            exact hau s hs
          · intro au hmem
            exact lt_of_lt_of_le (hem au hmem) hmono
        · rw [if_neg htype]
          refine scanInv_intro _ hlen2 ?_ ?_
          · intro s hs
            exact hau s hs
          · intro au hmem
            exact lt_of_lt_of_le (hem au hmem) hmono

/-- Any sequence of `appendPayload` calls preserves the scanner
invariant. -/
theorem runAppendPayloads_scanInv (calls : List (Buffer × Nat × Bool))
    (es : ElementaryStream) (h : es.scanInv) :
    (runAppendPayloads es calls).scanInv := by
  induction calls generalizing es with
  | nil => exact h
  | cons c rest ih =>
    exact ih _ (appendPayload_scanInv es c.1 c.2.1 c.2.2 h)

/-- C8: over any sequence of appendPayload calls on a stream satisfying
the scanner invariant (in particular any fresh stream), every AccessUnit
emitted by the H.264 scanner lies within the payload sub-buffer range
`[base, limit)`: with `base = 0` in the embedding, both its data offset
and its end offset `data + dataSize` are strictly below the buffer
limit. -/
theorem emitted_access_units_within_buffer (es : ElementaryStream)
    (calls : List (Buffer × Nat × Bool)) (h : es.scanInv) :
    ∀ au ∈ (runAppendPayloads es calls).emitted,
      au.data < (runAppendPayloads es calls).buf.limit ∧
      au.data + au.dataSize < (runAppendPayloads es calls).buf.limit := by
  have h2 := runAppendPayloads_scanInv calls es h
  intro au hmem
  have h3 := h2.2.2 au hmem
  have h4 := h2.1
  omega

/-- Witness for C8: the scenario-4 payload followed by one extra byte
emits the access unit at offset 0 with size 31, and both bounds hold for
it in the resulting stream. -/
theorem emitted_access_units_within_buffer_witness :
    (⟨0, 31, 1000, 900⟩ : ESAccessUnit).data <
      (runAppendPayloads scenario4Stream
        [(⟨scenario4Payload, 0, 35, false⟩, 35, true),
         (⟨[0xaa], 0, 1, false⟩, 1, false)]).buf.limit ∧
    (⟨0, 31, 1000, 900⟩ : ESAccessUnit).data +
        (⟨0, 31, 1000, 900⟩ : ESAccessUnit).dataSize <
      (runAppendPayloads scenario4Stream
        [(⟨scenario4Payload, 0, 35, false⟩, 35, true),
         (⟨[0xaa], 0, 1, false⟩, 1, false)]).buf.limit :=
  emitted_access_units_within_buffer scenario4Stream
    [(⟨scenario4Payload, 0, 35, false⟩, 35, true),
     (⟨[0xaa], 0, 1, false⟩, 1, false)]
    (scanInv_intro scenario4Stream (by decide)
      (fun s hs => by simp [scenario4Stream] at hs)
      (fun au hm => by simp [scenario4Stream] at hm))
    ⟨0, 31, 1000, 900⟩ (by decide)

namespace mpegts

theorem int32SignExtend_shiftLeft29_small :
    ∀ x < 4, int32SignExtendToUInt64 (x <<< 29) = x <<< 29 := by
  decide

/-- On a stream whose `dts`, `lastPts` and `firstPts` are all zero,
`updatePts tc` sets all three to `tc`. -/
theorem updatePts_fresh (es : ElementaryStream) (pts : Nat)
    (h1 : es.dts = 0) (h2 : es.lastPts = 0) (h3 : es.firstPts = 0) :
    (es.updatePts pts).dts = pts ∧ (es.updatePts pts).lastPts = pts ∧
    (es.updatePts pts).firstPts = pts := by
  unfold ElementaryStream.updatePts
  rcases Nat.eq_zero_or_pos pts with hz | hp
  · subst hz
    simp [h1, h2, h3]
  · simp [h1, h2, h3, hp, Nat.pos_iff_ne_zero.mp hp]

/-- With an empty capacity-5 header and a 5-byte input payload,
`parseHeaderCommon` accumulates the full header and falls into the
interpretation block. -/
theorem parseHeaderCommon_fills_header (l : List Nat) (hl : l.length = 5) :
    ptsOnlyFreshStream.parseHeaderCommon ⟨l, 0, 5, false⟩ =
      ElementaryStream.interpretFullHeader
        { ptsOnlyFreshStream with header := ⟨l, 0, 5, false⟩ }
        ⟨l, 5, 5, false⟩ := by
  unfold ElementaryStream.parseHeaderCommon
  simp [ptsOnlyFreshStream, ElementaryStream.init, Buffer.available,
    Buffer.size, Buffer.pullBytesFrom, hl,
    List.take_of_length_le (le_of_eq hl)]

/-- The 5-byte timecode extraction on a full header buffer, as the code
computes it (the first term through 32-bit `int` arithmetic). -/
theorem pullTimecodeFromBuffer_eq (b0 b1 b2 b3 b4 : Nat) :
    pullTimecodeFromBuffer ⟨[b0, b1, b2, b3, b4], 0, 5, false⟩ =
      ((int32SignExtendToUInt64 (b0 <<< 29) ||| (b1 <<< 22) |||
        ((b2 &&& 0xfe) <<< 14) ||| (b3 <<< 7) ||| ((b4 &&& 0xfe) >>> 1)),
       ⟨[b0, b1, b2, b3, b4], 5, 5, false⟩) := by
  simp only [pullTimecodeFromBuffer, Buffer.pullByte]
  norm_num [List.getD]

/-- A fully accumulated header whose flags have `(flags & 0xc0) = 0x80` is
interpreted as a single PTS: one timecode pull followed by `updatePts`. -/
theorem interpretFullHeader_ptsOnly (b0 b1 b2 b3 b4 : Nat)
    (es : ElementaryStream) (hfl : es.headerFlags &&& 0xc0 = 0x80)
    (hh : es.header = ⟨[b0, b1, b2, b3, b4], 0, 5, false⟩) (buf : Buffer) :
    es.interpretFullHeader buf =
      ((0 : Int),
       ({ es with header := ⟨[b0, b1, b2, b3, b4], 5, 5, false⟩ }).updatePts
         (int32SignExtendToUInt64 (b0 <<< 29) ||| (b1 <<< 22) |||
          ((b2 &&& 0xfe) <<< 14) ||| (b3 <<< 7) ||| ((b4 &&& 0xfe) >>> 1)),
       buf) := by
  unfold ElementaryStream.interpretFullHeader
  rw [hfl, hh, pullTimecodeFromBuffer_eq]
  norm_num

/-- Claim C2 (corrected): once a PTS-only optional header (flags with
`(hdr_flags & 0xC0) == 0x80`) is fully accumulated, the code parses the
5-byte timecode - equal to the claimed
`(b0 << 29) | (b1 << 22) | ((b2 & 0xFE) << 14) | (b3 << 7) | ((b4 & 0xFE) >> 1)`
whenever `b0 < 4` (larger `b0` overflows the 32-bit intermediate) - and
calls `updatePts`, which sets `dts := tc`, `lastPts := max lastPts tc` and
`firstPts := tc` if unset; on a fresh stream all three equal `tc`, and for
the scenario-2 packet encoding 90000 through the full `parseHeader` path
they equal 90000.  The mpegts stream has no field that is assigned `tc`
unconditionally besides `dts` (see the counterexample). -/
theorem pes_pts_only_fresh_stream_parsed (b0 b1 b2 b3 b4 : Nat)
    (hb0 : b0 < 4) :
    ((ptsOnlyFreshStream.parseHeaderCommon
        ⟨[b0, b1, b2, b3, b4], 0, 5, false⟩).1 = 0) ∧
    ((ptsOnlyFreshStream.parseHeaderCommon
        ⟨[b0, b1, b2, b3, b4], 0, 5, false⟩).2.1.dts =
      ((b0 <<< 29) ||| (b1 <<< 22) ||| ((b2 &&& 0xfe) <<< 14) |||
       (b3 <<< 7) ||| ((b4 &&& 0xfe) >>> 1))) ∧
    ((ptsOnlyFreshStream.parseHeaderCommon
        ⟨[b0, b1, b2, b3, b4], 0, 5, false⟩).2.1.lastPts =
      (ptsOnlyFreshStream.parseHeaderCommon
        ⟨[b0, b1, b2, b3, b4], 0, 5, false⟩).2.1.dts) ∧
    ((ptsOnlyFreshStream.parseHeaderCommon
        ⟨[b0, b1, b2, b3, b4], 0, 5, false⟩).2.1.firstPts =
      (ptsOnlyFreshStream.parseHeaderCommon
        ⟨[b0, b1, b2, b3, b4], 0, 5, false⟩).2.1.dts) ∧
    ((ElementaryStream.init.parseHeader ⟨scenario2Packet, 0, 14, false⟩
        true).1 = 0) ∧
    ((ElementaryStream.init.parseHeader ⟨scenario2Packet, 0, 14, false⟩
        true).2.1.dts = 90000) ∧
    ((ElementaryStream.init.parseHeader ⟨scenario2Packet, 0, 14, false⟩
        true).2.1.lastPts = 90000) ∧
    ((ElementaryStream.init.parseHeader ⟨scenario2Packet, 0, 14, false⟩
        true).2.1.firstPts = 90000) := by
  have hA := parseHeaderCommon_fills_header [b0, b1, b2, b3, b4] (by simp)
  have hB := interpretFullHeader_ptsOnly b0 b1 b2 b3 b4
    { ptsOnlyFreshStream with header := ⟨[b0, b1, b2, b3, b4], 0, 5, false⟩ }
    (by simp [ptsOnlyFreshStream, ElementaryStream.init] <;> decide) rfl
    ⟨[b0, b1, b2, b3, b4], 5, 5, false⟩
  rw [hA, hB]
  have hfr := updatePts_fresh
    { ptsOnlyFreshStream with header := ⟨[b0, b1, b2, b3, b4], 5, 5, false⟩ }
    (int32SignExtendToUInt64 (b0 <<< 29) ||| (b1 <<< 22) |||
     ((b2 &&& 0xfe) <<< 14) ||| (b3 <<< 7) ||| ((b4 &&& 0xfe) >>> 1))
    (by simp [ptsOnlyFreshStream, ElementaryStream.init])
    (by simp [ptsOnlyFreshStream, ElementaryStream.init])
    (by simp [ptsOnlyFreshStream, ElementaryStream.init])
  dsimp only
  rw [hfr.1, hfr.2.1, hfr.2.2, int32SignExtend_shiftLeft29_small b0 hb0]
  refine ⟨rfl, rfl, rfl, rfl, by decide, by decide, by decide, by decide⟩

/-- Witness for C2: the 5 PTS bytes of scenario 2 (timecode 90000). -/
theorem pes_pts_only_fresh_stream_parsed_witness :
    ((0 : Nat) < 4) ∧
    ((ptsOnlyFreshStream.parseHeaderCommon
        ⟨[0x00, 0x00, 0x05, 0xBF, 0x21], 0, 5, false⟩).1 = 0) ∧
    ((ptsOnlyFreshStream.parseHeaderCommon
        ⟨[0x00, 0x00, 0x05, 0xBF, 0x21], 0, 5, false⟩).2.1.dts =
      ((0x00 <<< 29) ||| (0x00 <<< 22) ||| ((0x05 &&& 0xfe) <<< 14) |||
       (0xBF <<< 7) ||| ((0x21 &&& 0xfe) >>> 1))) :=
  ⟨by decide,
   (pes_pts_only_fresh_stream_parsed 0x00 0x00 0x05 0xBF 0x21 (by decide)).1,
   (pes_pts_only_fresh_stream_parsed 0x00 0x00 0x05 0xBF 0x21 (by decide)).2.1⟩

/-- Counterexample for C2 as stated: after a second PES header with the
smaller PTS 45000, `dts = 45000` but `lastPts` (the running maximum) and
`firstPts` remain 90000, so no pts-like field of the stream equals the
parsed timecode. -/
theorem pes_pts_running_max_counterexample :
    ((((ElementaryStream.init.parseHeader ⟨scenario2Packet, 0, 14, false⟩
          true).2.1.parseHeader
          ⟨[0, 0, 1, 0xE0, 0, 0, 0x80, 0x80, 5, 0x00, 0x00, 0x03, 0x5F, 0x91],
           0, 14, false⟩ true).2.1.dts = 45000) ∧
     (((ElementaryStream.init.parseHeader ⟨scenario2Packet, 0, 14, false⟩
          true).2.1.parseHeader
          ⟨[0, 0, 1, 0xE0, 0, 0, 0x80, 0x80, 5, 0x00, 0x00, 0x03, 0x5F, 0x91],
           0, 14, false⟩ true).2.1.lastPts = 90000) ∧
     ¬(((ElementaryStream.init.parseHeader ⟨scenario2Packet, 0, 14, false⟩
          true).2.1.parseHeader
          ⟨[0, 0, 1, 0xE0, 0, 0, 0x80, 0x80, 5, 0x00, 0x00, 0x03, 0x5F, 0x91],
           0, 14, false⟩ true).2.1.lastPts = 45000) ∧
     ¬(((ElementaryStream.init.parseHeader ⟨scenario2Packet, 0, 14, false⟩
          true).2.1.parseHeader
          ⟨[0, 0, 1, 0xE0, 0, 0, 0x80, 0x80, 5, 0x00, 0x00, 0x03, 0x5F, 0x91],
           0, 14, false⟩ true).2.1.firstPts = 45000)) := by
  decide

theorem land_mask_eq_mod (a k : Nat) : a &&& (2 ^ k - 1) = a % 2 ^ k := by
  apply Nat.eq_of_testBit_eq
  intro i
  simp only [Nat.testBit_land, Nat.testBit_mod_two_pow,
    Nat.testBit_two_pow_sub_one]
  rw [Bool.and_comm]

theorem land_255 (a : Nat) : a &&& 255 = a % 256 := by
  have h := land_mask_eq_mod a 8
  norm_num at h
  exact h

theorem land_3 (a : Nat) : a &&& 3 = a % 4 := by
  have h := land_mask_eq_mod a 2
  norm_num at h
  exact h

theorem shiftRight8_eq_div (a : Nat) : a >>> 8 = a / 256 := by
  have h := Nat.shiftRight_eq_div_pow a 8
  norm_num at h
  exact h

theorem pmt_pid_mask : ∀ hi < 32, ∀ lo < 256,
    ((0xe0 ||| hi) <<< 8 ||| lo) &&& 0xe000 = 0xe000 ∧
    ((0xe0 ||| hi) <<< 8 ||| lo) &&& 0x1fff = hi * 256 + lo := by
  decide

theorem pmt_len_mask : ∀ hi < 4, ∀ lo < 256,
    ((0xf0 ||| hi) <<< 8 ||| lo) &&& 0xf000 = 0xf000 ∧
    ((0xf0 ||| hi) <<< 8 ||| lo) &&& 0x03ff = hi * 256 + lo := by
  decide

theorem validStreamType_iff :
    ∀ st < 256, (validStreamType st ≠ 0 ↔ (st = 0x0f ∨ st = 0x1b)) := by
  decide

theorem getD_drop (l : List Nat) (h i : Nat) :
    l.getD (h + i) 0 = (l.drop h).getD i 0 := by
  simp [List.getD, List.getElem?_drop]


theorem pmtValidStreams_eq_spec (entries : List (Nat × Nat × List Nat)) :
    (∀ e ∈ entries, e.1 < 256) →
    ∀ i, pmtValidStreams entries i = pmtSpecStreams entries i := by
  induction entries with
  | nil => intro _ i; rfl
  | cons e rest ih =>
    intro hent i
    have he : e.1 < 256 := hent e (List.mem_cons_self e rest)
    have hiff := validStreamType_iff e.1 he
    have hrest : ∀ x ∈ rest, x.1 < 256 :=
      fun x hx => hent x (List.mem_cons_of_mem e hx)
    unfold pmtValidStreams pmtSpecStreams
    by_cases hv : e.1 = 0x0f ∨ e.1 = 0x1b
    · rw [if_pos (hiff.mpr hv), if_pos hv, ih hrest (i + 1)]
    · rw [if_neg (fun hc => hv (hiff.mp hc)), if_neg hv]
      exact ih hrest i

theorem pmtValidPids_eq_spec (entries : List (Nat × Nat × List Nat)) :
    (∀ e ∈ entries, e.1 < 256) →
    pmtValidPids entries = pmtSpecPids entries := by
  induction entries with
  | nil => intro _; rfl
  | cons e rest ih =>
    intro hent
    have he : e.1 < 256 := hent e (List.mem_cons_self e rest)
    have hiff := validStreamType_iff e.1 he
    have hrest : ∀ x ∈ rest, x.1 < 256 :=
      fun x hx => hent x (List.mem_cons_of_mem e hx)
    unfold pmtValidPids pmtSpecPids
    by_cases hv : e.1 = 0x0f ∨ e.1 = 0x1b
    · rw [if_pos (hiff.mpr hv), if_pos hv, ih hrest]
    · rw [if_neg (fun hc => hv (hiff.mp hc)), if_neg hv]
      exact ih hrest

theorem createOrFindWalk_mem (pid : Nat) :
    ∀ (rest : List BufferNode) (n m : BufferNode),
      m ∈ createOrFindWalk n rest pid →
      m = n ∨ m ∈ rest ∨ m = BufferNode.fresh pid := by
  intro rest
  induction rest with
  | nil =>
    intro n m hm
    unfold createOrFindWalk at hm
    split at hm <;> simp_all
  | cons x xs ih =>
    intro n m hm
    unfold createOrFindWalk at hm
    split at hm
    · split at hm <;> simp_all <;> tauto
    · rcases List.mem_cons.mp hm with h1 | h2
      · exact Or.inl h1
      · rcases ih x m h2 with h3 | h3 | h3
        · exact Or.inr (Or.inl (by simp [h3]))
        · exact Or.inr (Or.inl (List.mem_cons_of_mem x h3))
        · exact Or.inr (Or.inr h3)

theorem createOrFindBuffer_mem (nodes : List BufferNode) (pid : Nat)
    (m : BufferNode) (hm : m ∈ createOrFindBuffer nodes pid) :
    m ∈ nodes ∨ m = BufferNode.fresh pid := by
  cases nodes with
  | nil =>
    unfold createOrFindBuffer at hm
    simp_all
  | cons n rest =>
    simp only [createOrFindBuffer] at hm
    split at hm
    · simp_all [List.mem_cons]
      tauto
    · rcases createOrFindWalk_mem pid rest n m hm with h | h | h
      · exact Or.inl (by simp [h])
      · exact Or.inl (List.mem_cons_of_mem n h)
      · exact Or.inr h

theorem setNodePES_mem (nodes : List BufferNode) (pid pg idx : Nat)
    (m : BufferNode) (hm : m ∈ setNodePES nodes pid pg idx) :
    (m ∈ nodes ∧ m.pid ≠ pid) ∨ (m.pid = pid ∧ m.type = NodeType.kPES) := by
  unfold setNodePES at hm
  rcases List.mem_map.mp hm with ⟨x, hx, hxm⟩
  by_cases hp : x.pid = pid
  · rw [if_pos hp] at hxm
    right
    constructor <;> simp [← hxm, hp]
  · rw [if_neg hp] at hxm
    subst hxm
    exact Or.inl ⟨hx, hp⟩

theorem mark_pid_inv (nodes : List BufferNode) (S : List Nat)
    (pid pg idx : Nat)
    (hinv : ∀ n ∈ nodes, n.type = NodeType.kPES ↔ n.pid ∈ S) :
    ∀ n ∈ setNodePES (createOrFindBuffer nodes pid) pid pg idx,
      n.type = NodeType.kPES ↔ n.pid ∈ pid :: S := by
  intro n hn
  rcases setNodePES_mem _ _ _ _ _ hn with ⟨hmem, hne⟩ | ⟨hp, ht⟩
  · rcases createOrFindBuffer_mem _ _ _ hmem with h1 | h1
    · have hiff := hinv n h1
      constructor
      · intro h
        exact List.mem_cons_of_mem _ (hiff.mp h)
      · intro h
        rcases List.mem_cons.mp h with h2 | h2
        · exact absurd h2 hne
        · exact hiff.mpr h2
    · exact absurd (by rw [h1]; rfl) hne
  · constructor
    · intro _
      rw [hp]
      exact List.mem_cons_self _ _
    · intro _
      exact ht

theorem findStream_none (streams : List ElementaryStream) (i : Nat)
    (h : ∀ s ∈ streams, s.index ≤ i) :
    findStream streams (i + 1) = none := by
  unfold findStream
  apply List.find?_eq_none.mpr
  intro s hs
  have hle := h s hs
  simp only [decide_eq_true_eq]
  omega

theorem entries_length_le (entries : List (Nat × Nat × List Nat)) :
    entries.length ≤ (encodePMTEntries entries).length := by
  induction entries with
  | nil => simp [encodePMTEntries]
  | cons e rest ih =>
    simp only [encodePMTEntries, List.map_cons, List.flatten_cons,
      List.length_append, List.length_cons]
    have h5 : 1 ≤ (encodePMTEntry e).length := by
      simp [encodePMTEntry]
    simp only [encodePMTEntries] at ih
    omega


theorem pmtLoop_run (progId : Nat) (crc : List Nat) (hcrc : crc.length = 4)
    (lim : Nat) :
    ∀ (entries : List (Nat × Nat × List Nat)), ∀ (fuel : Nat),
    ∀ (full : List Nat), ∀ (h : Nat),
    ∀ (streams : List ElementaryStream), ∀ (nodes : List BufferNode),
    ∀ (esIndex : Nat), ∀ (S : List Nat),
      (∀ e ∈ entries, e.2.1 < 0x2000 ∧ e.2.2.length ≤ 0x3ff) →
      full.drop h = encodePMTEntries entries ++ crc →
      entries.length ≤ fuel →
      (∀ s ∈ streams, s.index ≤ esIndex) →
      (∀ n ∈ nodes, n.type = NodeType.kPES ↔ n.pid ∈ S) →
      ∀ (res : Option Result) (st1 : PMTParseState),
        pmtLoop progId fuel ⟨⟨full, h, lim, false⟩, streams, nodes, esIndex⟩ =
          (res, st1) →
        res = none ∧
        st1.buffer = ⟨full, h + (encodePMTEntries entries).length, lim, false⟩ ∧
        st1.streams = streams ++ pmtValidStreams entries esIndex ∧
        (∀ n ∈ st1.nodes, n.type = NodeType.kPES ↔
          (n.pid ∈ pmtValidPids entries ∨ n.pid ∈ S)) ∧
        (∀ s ∈ st1.streams, s.index ≤ st1.esIndex) ∧
        st1.esIndex = esIndex + pmtValidCount entries := by
  intro entries
  induction entries with
  | nil =>
    intro fuel full h streams nodes esIndex S hent hread hfl hstr hinv res st1 heq
    have hsz : (⟨full, h, lim, false⟩ : Buffer).size = 4 := by
      have hdl : (full.drop h).length = full.length - h := List.length_drop h full
      rw [hread] at hdl
      simp only [encodePMTEntries, List.map_nil, List.flatten_nil,
        List.nil_append] at hdl
      unfold Buffer.size
      dsimp only
      omega
    have hend : pmtLoop progId fuel
        ⟨⟨full, h, lim, false⟩, streams, nodes, esIndex⟩ =
        (none, ⟨⟨full, h, lim, false⟩, streams, nodes, esIndex⟩) := by
      cases fuel with
      | zero => rfl
      | succ f =>
        simp only [pmtLoop]
        rw [if_neg (by rw [hsz]; omega)]
    rw [hend] at heq
    simp only [Prod.mk.injEq] at heq
    obtain ⟨h1, h2⟩ := heq
    subst h1
    subst h2
    refine ⟨rfl, ?_, ?_, ?_, ?_, ?_⟩
    · simp [encodePMTEntries]
    · simp [pmtValidStreams]
    · intro n hn
      simpa [pmtValidPids] using hinv n hn
    · exact hstr
    · simp [pmtValidCount]
  | cons e rest ih =>
    intro fuel full h streams nodes esIndex S hent hread hfl hstr hinv res st1 heq
    obtain ⟨t, p, d⟩ := e
    have hpe : p < 0x2000 := (hent (t, p, d) (List.mem_cons_self _ _)).1
    have hde : d.length ≤ 0x3ff := (hent (t, p, d) (List.mem_cons_self _ _)).2
    have hentrest : ∀ x ∈ rest, x.2.1 < 0x2000 ∧ x.2.2.length ≤ 0x3ff :=
      fun x hx => hent x (List.mem_cons_of_mem _ hx)
    have hEL : encodePMTEntries ((t, p, d) :: rest) =
        encodePMTEntry (t, p, d) ++ encodePMTEntries rest := by
      simp [encodePMTEntries]
    have hlen_e : (encodePMTEntry (t, p, d)).length = 5 + d.length := by
      simp [encodePMTEntry]
      omega
    have hfull : full.length - h =
        5 + d.length + (encodePMTEntries rest).length + 4 := by
      have hdl : (full.drop h).length = full.length - h := List.length_drop h full
      rw [hread, hEL] at hdl
      simp only [List.length_append, hlen_e, hcrc] at hdl
      omega
    have hcons : full.drop h = t :: (0xe0 ||| (p >>> 8)) :: (p &&& 255) ::
        (0xf0 ||| ((d.length >>> 8) &&& 3)) :: ((d.length &&& 255) ::
        (d ++ (encodePMTEntries rest ++ crc))) := by
      rw [hread, hEL]
      simp [encodePMTEntry]
    have hb0 : full.getD h 0 = t := by
      have hg := getD_drop full h 0
      rw [Nat.add_zero] at hg
      rw [hg, hcons]
      simp [List.getD]
    have hb1 : full.getD (h + 1) 0 = 0xe0 ||| (p >>> 8) := by
      rw [getD_drop full h 1, hcons]
      simp [List.getD]
    have hb2 : full.getD (h + 2) 0 = p &&& 255 := by
      rw [getD_drop full h 2, hcons]
      simp [List.getD]
    have hb3 : full.getD (h + 3) 0 = 0xf0 ||| ((d.length >>> 8) &&& 3) := by
      rw [getD_drop full h 3, hcons]
      simp [List.getD]
    have hb4 : full.getD (h + 4) 0 = d.length &&& 255 := by
      rw [getD_drop full h 4, hcons]
      simp [List.getD]
    have hne0 : ¬((⟨full, h, lim, false⟩ : Buffer).head =
        (⟨full, h, lim, false⟩ : Buffer).stored.length) := by
      dsimp only
      omega
    have hpull1 := Buffer.pullByte_of_ne (b := ⟨full, h, lim, false⟩) rfl hne0
    dsimp only at hpull1
    rw [hb0] at hpull1
    have hsz2 : 2 ≤ (⟨full, h + 1, lim, false⟩ : Buffer).size := by
      unfold Buffer.size
      dsimp only
      omega
    have hpull2 := Buffer.pullUInt16_full (b := ⟨full, h + 1, lim, false⟩)
      rfl hsz2
    dsimp only at hpull2
    rw [show h + 1 + 1 = h + 2 from rfl, show h + 1 + 2 = h + 3 from rfl,
      hb1, hb2] at hpull2
    have hsz3 : 2 ≤ (⟨full, h + 3, lim, false⟩ : Buffer).size := by
      unfold Buffer.size
      dsimp only
      omega
    have hpull3 := Buffer.pullUInt16_full (b := ⟨full, h + 3, lim, false⟩)
      rfl hsz3
    dsimp only at hpull3
    rw [show h + 3 + 1 = h + 4 from rfl, show h + 3 + 2 = h + 5 from rfl,
      hb3, hb4] at hpull3
    have hhi : p >>> 8 < 32 := by
      rw [shiftRight8_eq_div]
      omega
    have hlo : p &&& 255 < 256 := by
      rw [land_255]
      omega
    have hmask := pmt_pid_mask (p >>> 8) hhi (p &&& 255) hlo
    have hpidv : ((0xe0 ||| (p >>> 8)) <<< 8 ||| (p &&& 255)) &&& 0x1fff
        = p := by
      rw [hmask.2, shiftRight8_eq_div, land_255]
      omega
    have hhi2 : (d.length >>> 8) &&& 3 < 4 := by
      rw [land_3]
      omega
    have hlo2 : d.length &&& 255 < 256 := by
      rw [land_255]
      omega
    have hmask2 := pmt_len_mask ((d.length >>> 8) &&& 3) hhi2
      (d.length &&& 255) hlo2
    have hdlen : ((0xf0 ||| ((d.length >>> 8) &&& 3)) <<< 8 |||
        (d.length &&& 255)) &&& 0x03ff = d.length := by
      rw [hmask2.2, land_3, shiftRight8_eq_div, land_255]
      have hq : d.length / 256 < 4 := by omega
      rw [Nat.mod_eq_of_lt hq]
      omega
    have hle5 : h + 5 + d.length ≤ full.length := by omega
    have hskip : (⟨full, h + 5, lim, false⟩ : Buffer).skip d.length =
        ⟨full, h + 5 + d.length, lim, false⟩ := by
      unfold Buffer.skip
      dsimp only
      rw [Nat.min_eq_left hle5, Bool.false_or,
        decide_eq_false (by omega : ¬(h + 5 + d.length > full.length))]
    have hd1 : (full.drop h).drop (5 + d.length) =
        full.drop (h + 5 + d.length) := by
      rw [List.drop_drop]
      congr 1
      omega
    have hread2 : full.drop (h + 5 + d.length) =
        encodePMTEntries rest ++ crc := by
      rw [← hd1, hread, hEL, List.append_assoc,
        show 5 + d.length = (encodePMTEntry (t, p, d)).length from hlen_e.symm]
      exact List.drop_left _ _
    cases fuel with
    | zero =>
      simp at hfl
    | succ f =>
      have hfl2 : rest.length ≤ f := by
        simp only [List.length_cons] at hfl
        omega
      have hsz : (⟨full, h, lim, false⟩ : Buffer).size > 4 := by
        unfold Buffer.size
        dsimp only
        omega
      simp only [pmtLoop] at heq
      rw [if_pos hsz] at heq
      rw [hpull1] at heq
      dsimp only at heq
      rw [hpull2] at heq
      dsimp only at heq
      rw [if_neg (not_not_intro hmask.1)] at heq
      rw [hpidv] at heq
      rw [hpull3] at heq
      dsimp only at heq
      rw [hdlen] at heq
      rw [hskip] at heq
      by_cases hv : validStreamType t ≠ 0
      · rw [if_pos hv] at heq
        rw [findStream_none streams esIndex hstr] at heq
        rw [if_neg (by simp :
          ¬((none : Option ElementaryStream).isSome = true))] at heq
        have hstr2 : ∀ s ∈ streams ++
            [ElementaryStream.mkStream t (esIndex + 1)],
            s.index ≤ esIndex + 1 := by
          intro s hs
          rcases List.mem_append.mp hs with h1 | h1
          · exact Nat.le_succ_of_le (hstr s h1)
          · rw [List.mem_singleton.mp h1]
            exact Nat.le_refl _
        have hinv2 := mark_pid_inv nodes S p progId (esIndex + 1) hinv
        obtain ⟨h1, h2, h3, h4, h5, h6⟩ := ih f full (h + 5 + d.length) _ _
          (esIndex + 1) (p :: S) hentrest hread2 hfl2 hstr2 hinv2 res st1 heq
        have hvstream : pmtValidStreams ((t, p, d) :: rest) esIndex =
            ElementaryStream.mkStream t (esIndex + 1) ::
              pmtValidStreams rest (esIndex + 1) := by
          simp [pmtValidStreams, hv]
        have hvpids : pmtValidPids ((t, p, d) :: rest) =
            p :: pmtValidPids rest := by
          simp [pmtValidPids, hv]
        have hvcount : pmtValidCount ((t, p, d) :: rest) =
            pmtValidCount rest + 1 := by
          simp [pmtValidCount, hv]
        refine ⟨h1, ?_, ?_, ?_, h5, ?_⟩
        · rw [h2, hEL]
          have hlenapp : (encodePMTEntry (t, p, d) ++
              encodePMTEntries rest).length =
              5 + d.length + (encodePMTEntries rest).length := by
            simp [hlen_e]
          rw [hlenapp]
          congr 1
          omega
        · rw [h3, hvstream]
          simp
        · intro n hn
          have hiff := h4 n hn
          rw [hvpids]
          simp only [List.mem_cons] at hiff ⊢
          tauto
        · rw [h6, hvcount]
          omega
      · rw [if_neg hv] at heq
        obtain ⟨h1, h2, h3, h4, h5, h6⟩ := ih f full (h + 5 + d.length)
          streams nodes esIndex S hentrest hread2 hfl2 hstr hinv res st1 heq
        have hvstream : pmtValidStreams ((t, p, d) :: rest) esIndex =
            pmtValidStreams rest esIndex := by
          simp [pmtValidStreams, hv]
        have hvpids : pmtValidPids ((t, p, d) :: rest) =
            pmtValidPids rest := by
          simp [pmtValidPids, hv]
        have hvcount : pmtValidCount ((t, p, d) :: rest) =
            pmtValidCount rest := by
          simp [pmtValidCount, hv]
        refine ⟨h1, ?_, ?_, ?_, h5, ?_⟩
        · rw [h2, hEL]
          have hlenapp : (encodePMTEntry (t, p, d) ++
              encodePMTEntries rest).length =
              5 + d.length + (encodePMTEntries rest).length := by
            simp [hlen_e]
          rw [hlenapp]
          congr 1
          omega
        · rw [h3, hvstream]
        · intro n hn
          rw [hvpids]
          exact h4 n hn
        · rw [h6, hvcount]

/-- C4: for every fully reassembled PMT section (encoded with in-range
PIDs and descriptor lengths and a 4-byte CRC), parsing returns kContinue,
the stream list consists of exactly the entries with stream type 0x0F or
0x1B, numbered from 1 in entry order, and a PID node is marked kPES
exactly when its PID belongs to such an entry: an unsupported entry
creates no ElementaryStream, leaves its PID node unmarked, and parsing
continues with the subsequent entries of the same PMT. -/
theorem pmt_supported_stream_types_only
    (pcrPid : Nat) (hpcr : pcrPid < 0x2000)
    (progDesc : List Nat) (hpd : progDesc.length ≤ 0x3ff)
    (entries : List (Nat × Nat × List Nat))
    (hent : ∀ e ∈ entries, e.1 < 256 ∧ e.2.1 < 0x2000 ∧
      e.2.2.length ≤ 0x3ff)
    (crc : List Nat) (hcrc : crc.length = 4) (progId : Nat) :
    (parseSectionPMT ⟨encodePMTSection pcrPid progDesc entries crc, 0,
        (encodePMTSection pcrPid progDesc entries crc).length, false⟩
        progId [] []).1 = Result.kContinue ∧
    (parseSectionPMT ⟨encodePMTSection pcrPid progDesc entries crc, 0,
        (encodePMTSection pcrPid progDesc entries crc).length, false⟩
        progId [] []).2.2.1 = pmtSpecStreams entries 0 ∧
    ∀ n ∈ (parseSectionPMT ⟨encodePMTSection pcrPid progDesc entries crc, 0,
        (encodePMTSection pcrPid progDesc entries crc).length, false⟩
        progId [] []).2.2.2,
      (n.type = NodeType.kPES ↔ n.pid ∈ pmtSpecPids entries) := by
  have hL : encodePMTSection pcrPid progDesc entries crc =
      (0xe0 ||| (pcrPid >>> 8)) :: (pcrPid &&& 255) ::
      (0xf0 ||| ((progDesc.length >>> 8) &&& 3)) ::
      ((progDesc.length &&& 255) ::
      (progDesc ++ (encodePMTEntries entries ++ crc))) := by
    simp [encodePMTSection]
  have hlenL : (encodePMTSection pcrPid progDesc entries crc).length =
      4 + progDesc.length + (encodePMTEntries entries).length + 4 := by
    rw [hL]
    simp [hcrc]
    omega
  have hb0 : (encodePMTSection pcrPid progDesc entries crc).getD 0 0 =
      0xe0 ||| (pcrPid >>> 8) := by
    rw [hL]
    simp [List.getD]
  have hb1 : (encodePMTSection pcrPid progDesc entries crc).getD 1 0 =
      pcrPid &&& 255 := by
    rw [hL]
    simp [List.getD]
  have hb2 : (encodePMTSection pcrPid progDesc entries crc).getD 2 0 =
      0xf0 ||| ((progDesc.length >>> 8) &&& 3) := by
    rw [hL]
    simp [List.getD]
  have hb3 : (encodePMTSection pcrPid progDesc entries crc).getD 3 0 =
      progDesc.length &&& 255 := by
    rw [hL]
    simp [List.getD]
  have hsz0 : 2 ≤ (⟨encodePMTSection pcrPid progDesc entries crc, 0,
      (encodePMTSection pcrPid progDesc entries crc).length, false⟩ :
      Buffer).size := by
    unfold Buffer.size
    dsimp only
    omega
  have hpull1 := Buffer.pullUInt16_full
    (b := ⟨encodePMTSection pcrPid progDesc entries crc, 0,
      (encodePMTSection pcrPid progDesc entries crc).length, false⟩)
    rfl hsz0
  dsimp only at hpull1
  rw [show (0 : Nat) + 1 = 1 from rfl, show (0 : Nat) + 2 = 2 from rfl,
    hb0, hb1] at hpull1
  have hsz1 : 2 ≤ (⟨encodePMTSection pcrPid progDesc entries crc, 2,
      (encodePMTSection pcrPid progDesc entries crc).length, false⟩ :
      Buffer).size := by
    unfold Buffer.size
    dsimp only
    omega
  have hpull2 := Buffer.pullUInt16_full
    (b := ⟨encodePMTSection pcrPid progDesc entries crc, 2,
      (encodePMTSection pcrPid progDesc entries crc).length, false⟩)
    rfl hsz1
  dsimp only at hpull2
  rw [show (2 : Nat) + 1 = 3 from rfl, show (2 : Nat) + 2 = 4 from rfl,
    hb2, hb3] at hpull2
  have hhi : pcrPid >>> 8 < 32 := by
    rw [shiftRight8_eq_div]
    omega
  have hlo : pcrPid &&& 255 < 256 := by
    rw [land_255]
    omega
  have hmaskp := pmt_pid_mask (pcrPid >>> 8) hhi (pcrPid &&& 255) hlo
  have hhi2 : (progDesc.length >>> 8) &&& 3 < 4 := by
    rw [land_3]
    omega
  have hlo2 : progDesc.length &&& 255 < 256 := by
    rw [land_255]
    omega
  have hmaskl := pmt_len_mask ((progDesc.length >>> 8) &&& 3) hhi2
    (progDesc.length &&& 255) hlo2
  have hpdlen : ((0xf0 ||| ((progDesc.length >>> 8) &&& 3)) <<< 8 |||
      (progDesc.length &&& 255)) &&& 0x03ff = progDesc.length := by
    rw [hmaskl.2, land_3, shiftRight8_eq_div, land_255]
    have hq : progDesc.length / 256 < 4 := by omega
    rw [Nat.mod_eq_of_lt hq]
    omega
  have hle4 : 4 + progDesc.length ≤
      (encodePMTSection pcrPid progDesc entries crc).length := by
    omega
  have hskip : (⟨encodePMTSection pcrPid progDesc entries crc, 4,
      (encodePMTSection pcrPid progDesc entries crc).length, false⟩ :
      Buffer).skip progDesc.length =
      ⟨encodePMTSection pcrPid progDesc entries crc, 4 + progDesc.length,
        (encodePMTSection pcrPid progDesc entries crc).length, false⟩ := by
    unfold Buffer.skip
    dsimp only
    rw [Nat.min_eq_left hle4, Bool.false_or,
      decide_eq_false (by omega :
        ¬(4 + progDesc.length >
          (encodePMTSection pcrPid progDesc entries crc).length))]
  have hread : (encodePMTSection pcrPid progDesc entries crc).drop
      (4 + progDesc.length) = encodePMTEntries entries ++ crc := by
    rw [hL]
    rw [show (0xe0 ||| (pcrPid >>> 8)) :: (pcrPid &&& 255) ::
      (0xf0 ||| ((progDesc.length >>> 8) &&& 3)) ::
      ((progDesc.length &&& 255) ::
      (progDesc ++ (encodePMTEntries entries ++ crc))) =
      ((0xe0 ||| (pcrPid >>> 8)) :: (pcrPid &&& 255) ::
      (0xf0 ||| ((progDesc.length >>> 8) &&& 3)) ::
      (progDesc.length &&& 255) :: progDesc) ++
      (encodePMTEntries entries ++ crc) from by simp]
    rw [show 4 + progDesc.length =
      ((0xe0 ||| (pcrPid >>> 8)) :: (pcrPid &&& 255) ::
      (0xf0 ||| ((progDesc.length >>> 8) &&& 3)) ::
      (progDesc.length &&& 255) :: progDesc).length from by simp; omega]
    exact List.drop_left _ _
  have hfuel : entries.length ≤
      (⟨encodePMTSection pcrPid progDesc entries crc, 4 + progDesc.length,
        (encodePMTSection pcrPid progDesc entries crc).length, false⟩ :
        Buffer).size := by
    have hel := entries_length_le entries
    unfold Buffer.size
    dsimp only
    omega
  obtain ⟨h1, h2, h3, h4, h5, h6⟩ := pmtLoop_run progId crc hcrc
    (encodePMTSection pcrPid progDesc entries crc).length entries
    ((⟨encodePMTSection pcrPid progDesc entries crc, 4 + progDesc.length,
        (encodePMTSection pcrPid progDesc entries crc).length, false⟩ :
        Buffer).size)
    (encodePMTSection pcrPid progDesc entries crc) (4 + progDesc.length)
    [] [] 0 []
    (fun e he => ⟨(hent e he).2.1, (hent e he).2.2⟩) hread hfuel
    (fun s hs => by cases hs) (fun n hn => by cases hn)
    _ _ rfl
  have hts : ∀ e ∈ entries, e.1 < 256 := fun e he => (hent e he).1
  unfold parseSectionPMT
  dsimp only
  rw [hpull1]
  dsimp only
  rw [hpull2]
  dsimp only
  rw [if_neg (not_not_intro hmaskp.1)]
  rw [if_neg (not_not_intro hmaskl.1)]
  rw [hpdlen, hskip]
  rw [h1]
  dsimp only
  rw [h2]
  have hszf : (⟨encodePMTSection pcrPid progDesc entries crc,
      4 + progDesc.length + (encodePMTEntries entries).length,
      (encodePMTSection pcrPid progDesc entries crc).length, false⟩ :
      Buffer).size = 4 := by
    unfold Buffer.size
    dsimp only
    omega
  rw [if_pos hszf]
  refine ⟨rfl, ?_, ?_⟩
  · rw [h3, pmtValidStreams_eq_spec entries hts 0]
    simp
  · intro n hn
    have hiff := h4 n hn
    rw [pmtValidPids_eq_spec entries hts] at hiff
    simpa using hiff

/-- Witness for C4: a PMT with entries H.264 (kept), 0x06 (dropped) and
AAC (kept) yields kContinue, the two expected streams, and a kPES node
for the AAC PID 0x102. -/
theorem pmt_supported_stream_types_only_witness :
    (parseSectionPMT ⟨encodePMTSection 0x100 []
        [(0x1b, 0x100, []), (0x06, 0x101, [1, 2]), (0x0f, 0x102, [])]
        [0, 0, 0, 0], 0,
        (encodePMTSection 0x100 []
          [(0x1b, 0x100, []), (0x06, 0x101, [1, 2]), (0x0f, 0x102, [])]
          [0, 0, 0, 0]).length, false⟩ 7 [] []).1 = Result.kContinue ∧
    (parseSectionPMT ⟨encodePMTSection 0x100 []
        [(0x1b, 0x100, []), (0x06, 0x101, [1, 2]), (0x0f, 0x102, [])]
        [0, 0, 0, 0], 0,
        (encodePMTSection 0x100 []
          [(0x1b, 0x100, []), (0x06, 0x101, [1, 2]), (0x0f, 0x102, [])]
          [0, 0, 0, 0]).length, false⟩ 7 [] []).2.2.1 =
      pmtSpecStreams
        [(0x1b, 0x100, []), (0x06, 0x101, [1, 2]), (0x0f, 0x102, [])] 0 ∧
    ((⟨0x102, NodeType.kPES, 7, 2⟩ : BufferNode).type = NodeType.kPES ↔
      (⟨0x102, NodeType.kPES, 7, 2⟩ : BufferNode).pid ∈ pmtSpecPids
        [(0x1b, 0x100, []), (0x06, 0x101, [1, 2]), (0x0f, 0x102, [])]) := by
  have H := pmt_supported_stream_types_only 0x100 (by decide) [] (by decide)
    [(0x1b, 0x100, []), (0x06, 0x101, [1, 2]), (0x0f, 0x102, [])]
    (by decide) [0, 0, 0, 0] rfl 7
  exact ⟨H.1, H.2.1, H.2.2 ⟨0x102, NodeType.kPES, 7, 2⟩ (by decide)⟩

end mpegts

end cinekav
